/-
  Verification of the DPLL SAT solver (sources: src/structures.c, src/solver.c,
  src/parser.c, src/utils.c, src/main.c).

  The embedding is shallow: C structs become Lean structures, the mutable
  assignment array becomes a `List var_assignment_t` indexed by variable id
  (index 0 unused, reads out of range yield VAR_UNASSIGNED, mirroring the
  calloc-zeroed array), and the unbounded C loops become fuel-indexed
  recursions whose fuel is proved sufficient.  Wall-clock timeout checks are
  modelled by a boolean oracle `timeout_at : Nat → Bool` indexed by the
  iteration counter, and the strategy dispatch `choose_decision_variable` is a
  function parameter (the individual heuristics needed by the claims are
  modelled separately).
-/
import Mathlib

set_option maxHeartbeats 4000000
set_option maxRecDepth 4000

namespace SatSolver

/-! ## Data model (structures.h / structures.c) -/

/-- C enum `var_assignment_t`: status of one variable. -/
inductive var_assignment_t
  | VAR_UNASSIGNED
  | VAR_TRUE
  | VAR_FALSE
  deriving DecidableEq

open var_assignment_t

/-- C `literal_variable`: `lit > 0 ? lit : -lit`. -/
def literal_variable (lit : Int) : Nat := lit.natAbs

/-- C `literal_is_positive`: `lit > 0`. -/
def literal_is_positive (lit : Int) : Bool := 0 < lit

/-- C `literal_negate`. -/
def literal_negate (lit : Int) : Int := -lit

/-- Read `assignment[v]`; out-of-range reads give VAR_UNASSIGNED
    (the C array is calloc-zeroed and of size num_variables + 1). -/
def assignGet (assignment : List var_assignment_t) (v : Nat) : var_assignment_t :=
  assignment.getD v VAR_UNASSIGNED

/-- The satisfaction test the C evaluation primitives repeat literally:
    `(is_positive && var_value == VAR_TRUE) || (!is_positive && var_value == VAR_FALSE)`. -/
def literal_value_satisfies (is_positive : Bool) (var_value : var_assignment_t) : Bool :=
  (is_positive && var_value == VAR_TRUE) || (!is_positive && var_value == VAR_FALSE)

/-- C struct `clause_t` (the `is_satisfied` / `is_unit` caches are written only
    by `cnf_update_caches`, which none of the verified routines call). -/
structure clause_t where
  literals : List Int
  deriving DecidableEq

/-- C `clause_is_satisfied`: some literal is satisfied. -/
def clause_is_satisfied (clause : clause_t) (assignment : List var_assignment_t) : Bool :=
  clause.literals.any fun lit =>
    literal_value_satisfies (literal_is_positive lit) (assignGet assignment (literal_variable lit))

/-- Loop body of C `clause_is_unit`, carrying `unassigned_literal` and
    `unassigned_count` through the scan. -/
def clause_is_unit_go (assignment : List var_assignment_t) :
    List Int → Option Int → Nat → Option Int
  | [], unassigned_literal, unassigned_count =>
      if unassigned_count == 1 then unassigned_literal else none
  | lit :: rest, unassigned_literal, unassigned_count =>
      let var_value := assignGet assignment (literal_variable lit)
      if literal_value_satisfies (literal_is_positive lit) var_value then
        none
      else if var_value == VAR_UNASSIGNED then
        if unassigned_count + 1 > 1 then none
        else clause_is_unit_go assignment rest (some lit) (unassigned_count + 1)
      else
        clause_is_unit_go assignment rest unassigned_literal unassigned_count

/-- C `clause_is_unit`: returns the sole unassigned literal (the C version
    returns a bool plus an out-parameter, combined here into an `Option`). -/
def clause_is_unit (clause : clause_t) (assignment : List var_assignment_t) : Option Int :=
  clause_is_unit_go assignment clause.literals none 0

/-- C `clause_is_conflicting`: every literal is falsified. -/
def clause_is_conflicting (clause : clause_t) (assignment : List var_assignment_t) : Bool :=
  clause.literals.all fun lit =>
    let var_value := assignGet assignment (literal_variable lit)
    !(var_value == VAR_UNASSIGNED ||
      literal_value_satisfies (literal_is_positive lit) var_value)

/-- C struct `cnf_formula_t` (clause list, assignment vector, variable count;
    the `variable_used` / occurrence-list caches play no role in the claims). -/
structure cnf_formula_t where
  clauses : List clause_t
  num_variables : Nat
  assignment : List var_assignment_t
  deriving DecidableEq

/-- C `cnf_is_satisfied`: all clauses satisfied. -/
def cnf_is_satisfied (cnf : cnf_formula_t) : Bool :=
  cnf.clauses.all fun clause => clause_is_satisfied clause cnf.assignment

/-- C `cnf_has_conflict`: some clause conflicting. -/
def cnf_has_conflict (cnf : cnf_formula_t) : Bool :=
  cnf.clauses.any fun clause => clause_is_conflicting clause cnf.assignment

/-- C struct `assignment_entry_t` (`var` stands for the C field `variable`). -/
structure assignment_entry_t where
  var : Nat
  value : var_assignment_t
  decision_level : Nat
  is_decision : Bool
  deriving DecidableEq

/-- C struct `assignment_stack_t`; the head of `stack` is the top of the C
    array (index `size - 1`). -/
structure assignment_stack_t where
  stack : List assignment_entry_t
  decision_level : Nat
  deriving DecidableEq

/-- C `assignment_stack_push` (the realloc failure path is not modelled:
    allocation failure is fatal per the resource-error policy). -/
def assignment_stack_push (st : assignment_stack_t) (var : Nat)
    (value : var_assignment_t) (is_decision : Bool) : assignment_stack_t :=
  let dl := if is_decision then st.decision_level + 1 else st.decision_level
  { stack := { var := var, value := value, decision_level := dl,
               is_decision := is_decision } :: st.stack,
    decision_level := dl }

/-- C `assignment_stack_pop`: returns the popped entry and the new stack,
    decrementing the level only for a decision entry at positive level. -/
def assignment_stack_pop (st : assignment_stack_t) :
    Option (assignment_entry_t × assignment_stack_t) :=
  match st.stack with
  | [] => none
  | top :: rest =>
      some (top,
        { stack := rest,
          decision_level :=
            if top.is_decision && decide (0 < st.decision_level) then
              st.decision_level - 1
            else st.decision_level })

/-- Pop loop of C `assignment_stack_backtrack_to_level` (pop while the top
    entry's decision_level exceeds `level`). -/
def pop_above_level : List assignment_entry_t → Nat → List assignment_entry_t
  | [], _ => []
  | e :: rest, level =>
      if e.decision_level > level then pop_above_level rest level else e :: rest

/-- C `assignment_stack_backtrack_to_level`: pop entries above `level`, then
    overwrite the stored level with `level`. -/
def assignment_stack_backtrack_to_level (st : assignment_stack_t) (level : Nat) :
    assignment_stack_t :=
  { stack := pop_above_level st.stack level, decision_level := level }

/-! ## Solver state (solver.h / solver.c) -/

/-- C enum `solver_result_t`. -/
inductive solver_result_t
  | SOLVER_SATISFIABLE
  | SOLVER_UNSATISFIABLE
  | SOLVER_UNKNOWN
  | SOLVER_TIMEOUT
  | SOLVER_MEMORY_ERROR
  | SOLVER_ERROR
  deriving DecidableEq

open solver_result_t

/-- C struct `solver_config_t` (the heuristic dispatch and the wall-clock
    timeout are function parameters of the driver, see the file header). -/
structure solver_config_t where
  enable_pure_literal : Bool
  enable_unit_propagation : Bool
  enable_preprocessing : Bool
  enable_restarts : Bool
  max_decisions : Nat
  restart_threshold : Nat
  deriving DecidableEq

/-- Counters of C struct `solver_stats_t` that the core updates. -/
structure solver_stats_t where
  decisions : Nat
  propagations : Nat
  conflicts : Nat
  restarts : Nat
  deriving DecidableEq

/-- C struct `dpll_solver_t` (formula, assignment stack, config, stats,
    restart counter; the write-only `pure_literals` scratch array and the
    unused `unit_clauses` buffer are omitted). -/
structure dpll_solver_t where
  formula : cnf_formula_t
  assignments : assignment_stack_t
  config : solver_config_t
  stats : solver_stats_t
  conflicts_since_restart : Nat
  deriving DecidableEq

/-- C macro `IS_VARIABLE_ASSIGNED`. -/
def IS_VARIABLE_ASSIGNED (solver : dpll_solver_t) (var : Nat) : Bool :=
  !(assignGet solver.formula.assignment var == VAR_UNASSIGNED)

/-- C `assign_variable`: fails (returns false, here `none`) iff `var == 0` or
    `var > num_variables`; otherwise writes the assignment array and pushes. -/
def assign_variable (solver : dpll_solver_t) (var : Nat)
    (value : var_assignment_t) (is_decision : Bool) : Option dpll_solver_t :=
  if var == 0 || var > solver.formula.num_variables then none
  else some
    { solver with
      formula := { solver.formula with
                   assignment := solver.formula.assignment.set var value },
      assignments := assignment_stack_push solver.assignments var value is_decision }

/-- C `has_conflict` (same loop as `cnf_has_conflict`). -/
def has_conflict (solver : dpll_solver_t) : Bool :=
  cnf_has_conflict solver.formula

/-- C `is_formula_satisfied`. -/
def is_formula_satisfied (solver : dpll_solver_t) : Bool :=
  cnf_is_satisfied solver.formula

/-! ### Unit propagation (solver.c, `unit_propagation`) -/

/-- One inner `for` pass of C `unit_propagation` over the clause list.
    Result: `(early return if any, state, propagated flag)`. -/
def up_pass : dpll_solver_t → List clause_t → Bool →
    Option solver_result_t × dpll_solver_t × Bool
  | solver, [], propagated => (none, solver, propagated)
  | solver, clause :: rest, propagated =>
    if clause_is_satisfied clause solver.formula.assignment then
      up_pass solver rest propagated
    else
      match clause_is_unit clause solver.formula.assignment with
      | none => up_pass solver rest propagated
      | some unit_literal =>
        let var := literal_variable unit_literal
        let value := if literal_is_positive unit_literal then VAR_TRUE else VAR_FALSE
        if IS_VARIABLE_ASSIGNED solver var then
          if !(assignGet solver.formula.assignment var == value) then
            (some SOLVER_UNKNOWN,
             { solver with
               conflicts_since_restart := solver.conflicts_since_restart + 1,
               stats := { solver.stats with conflicts := solver.stats.conflicts + 1 } },
             propagated)
          else
            up_pass solver rest propagated
        else
          match assign_variable solver var value false with
          | none => (some SOLVER_MEMORY_ERROR, solver, propagated)
          | some s1 =>
            up_pass
              { s1 with stats := { s1.stats with propagations := s1.stats.propagations + 1 } }
              rest true

/-- Number of unassigned variables among 1..num_variables; the decreasing
    measure of the propagation loops. -/
def numUnassigned (solver : dpll_solver_t) : Nat :=
  (List.range' 1 solver.formula.num_variables).countP
    (fun v => assignGet solver.formula.assignment v == VAR_UNASSIGNED)

/-- The `do { ... } while (propagated)` loop of C `unit_propagation`, with
    explicit fuel.  The final `Bool` is true iff the loop completed (fuel did
    not run out); `unit_propagation_fuel_sufficient` shows
    `numUnassigned + 1` passes always complete. -/
def unit_propagation_loop : Nat → dpll_solver_t → solver_result_t × dpll_solver_t × Bool
  | 0, solver => (SOLVER_UNKNOWN, solver, false)
  | fuel + 1, solver =>
    match up_pass solver solver.formula.clauses false with
    | (some result, s1, _) => (result, s1, true)
    | (none, s1, true) => unit_propagation_loop fuel s1
    | (none, s1, false) =>
      if cnf_is_satisfied s1.formula then (SOLVER_SATISFIABLE, s1, true)
      else (SOLVER_UNKNOWN, s1, true)

/-- C `unit_propagation`. -/
def unit_propagation (solver : dpll_solver_t) : solver_result_t × dpll_solver_t :=
  let r := unit_propagation_loop (numUnassigned solver + 1) solver
  (r.1, r.2.1)

/-! ### Pure-literal elimination (solver.c, `pure_literal_elimination`) -/

/-- The nested clause/literal scan of `pure_literal_elimination` for one
    polarity: does `var` occur with polarity `positive` in some clause that is
    not satisfied?  (The C loop exits early once both polarity flags are true;
    the flags are monotone, so the computed flags coincide with this
    existence test.) -/
def appears_in_unsatisfied (formula : cnf_formula_t) (var : Nat) (positive : Bool) : Bool :=
  formula.clauses.any fun clause =>
    !clause_is_satisfied clause formula.assignment &&
    clause.literals.any fun lit =>
      literal_variable lit == var && literal_is_positive lit == positive

/-- Body of the variable loop of C `pure_literal_elimination` for one
    variable: returns `(assigned this variable, new state)`.  The C code
    ignores `assign_variable`'s return value, so a failed assignment leaves
    the state unchanged but still reports a change. -/
def pure_literal_assign (solver : dpll_solver_t) (var : Nat) : Bool × dpll_solver_t :=
  if IS_VARIABLE_ASSIGNED solver var then (false, solver)
  else
    let appears_positive := appears_in_unsatisfied solver.formula var true
    let appears_negative := appears_in_unsatisfied solver.formula var false
    if appears_positive && !appears_negative then
      match assign_variable solver var VAR_TRUE false with
      | some s1 => (true, s1)
      | none => (true, solver)
    else if appears_negative && !appears_positive then
      match assign_variable solver var VAR_FALSE false with
      | some s1 => (true, s1)
      | none => (true, solver)
    else (false, solver)

/-- Variable loop of C `pure_literal_elimination`. -/
def pure_literal_loop : List Nat → dpll_solver_t → Bool → Bool × dpll_solver_t
  | [], solver, changed => (changed, solver)
  | var :: rest, solver, changed =>
    let r := pure_literal_assign solver var
    pure_literal_loop rest r.2 (changed || r.1)

/-- C `pure_literal_elimination`: one pass over variables 1..N; returns
    `(changed, new state)`. -/
def pure_literal_elimination (solver : dpll_solver_t) : Bool × dpll_solver_t :=
  pure_literal_loop (List.range' 1 solver.formula.num_variables) solver false

/-! ### Heuristics (solver.c) -/

/-- C `choose_decision_value`: always VAR_TRUE (VAR_UNASSIGNED for var 0). -/
def choose_decision_value (_solver : dpll_solver_t) (var : Nat) : var_assignment_t :=
  if var == 0 then VAR_UNASSIGNED else VAR_TRUE

/-- C `decision_first_unassigned`. -/
def decision_first_unassigned (solver : dpll_solver_t) : Nat :=
  ((List.range' 1 solver.formula.num_variables).find?
    (fun var => !IS_VARIABLE_ASSIGNED solver var)).getD 0

/-- C `calculate_literal_frequency`: number of non-satisfied clauses
    containing `literal` (the inner loop breaks at the first occurrence, i.e.
    counts each clause once). -/
def calculate_literal_frequency (solver : dpll_solver_t) (literal : Int) : Nat :=
  solver.formula.clauses.countP fun clause =>
    !clause_is_satisfied clause solver.formula.assignment &&
    clause.literals.contains literal

/-- The `total_freq = pos_freq + neg_freq` computed per variable by
    `decision_most_frequent`. -/
def total_frequency (solver : dpll_solver_t) (var : Nat) : Nat :=
  calculate_literal_frequency solver (Int.ofNat var) +
  calculate_literal_frequency solver (-(Int.ofNat var : Int))

/-- Variable loop of C `decision_most_frequent`, carrying
    `(best_var, max_frequency)`. -/
def decision_most_frequent_loop (solver : dpll_solver_t) :
    List Nat → Nat → Nat → Nat
  | [], best_var, _ => best_var
  | var :: rest, best_var, max_frequency =>
    if IS_VARIABLE_ASSIGNED solver var then
      decision_most_frequent_loop solver rest best_var max_frequency
    else
      let total_freq := total_frequency solver var
      if total_freq > max_frequency then
        decision_most_frequent_loop solver rest var total_freq
      else
        decision_most_frequent_loop solver rest best_var max_frequency

/-- C `decision_most_frequent` (initial accumulator `best_var = 0`,
    `max_frequency = 0`). -/
def decision_most_frequent (solver : dpll_solver_t) : Nat :=
  decision_most_frequent_loop solver
    (List.range' 1 solver.formula.num_variables) 0 0

/-! ### Backtracking (solver.c, `backtrack`) -/

/-- The per-entry clearing `formula->assignment[entry.variable] = VAR_UNASSIGNED`
    done by the pop loop of `backtrack`. -/
def clear_assignment (assignment : List var_assignment_t)
    (entries : List assignment_entry_t) : List var_assignment_t :=
  entries.foldl (fun acc e => acc.set e.var VAR_UNASSIGNED) assignment

/-- C `backtrack`.  The C code scans from the top for the last decision
    (`span` splits the stack into the entries above it and the rest), pops the
    entries above it and the decision itself by decrementing `size` directly
    (so `stack->decision_level` is NOT touched), clears their assignments, and
    re-pushes the flipped decision via `assign_variable` as a decision. -/
def backtrack (solver : dpll_solver_t) : Bool × dpll_solver_t :=
  if solver.assignments.stack.isEmpty then (false, solver)
  else
    match solver.assignments.stack.span (fun e => !e.is_decision) with
    | (_, []) => (false, solver)
    | (above, decision_entry :: below) =>
      let a1 := clear_assignment solver.formula.assignment above
      let a2 := a1.set decision_entry.var VAR_UNASSIGNED
      let s1 : dpll_solver_t :=
        { solver with
          formula := { solver.formula with assignment := a2 },
          assignments := { solver.assignments with stack := below } }
      let opposite_value :=
        if decision_entry.value == VAR_TRUE then VAR_FALSE else VAR_TRUE
      match assign_variable s1 decision_entry.var opposite_value true with
      | none => (false, s1)
      | some s2 => (true, s2)

/-! ### Restarts (solver.c) -/

/-- C `unassign_until_level`: rewind the stack to `level`, clear the whole
    assignment array, then re-apply the remaining stack entries bottom-up. -/
def unassign_until_level (solver : dpll_solver_t) (level : Nat) : dpll_solver_t :=
  let st := assignment_stack_backtrack_to_level solver.assignments level
  let cleared := (List.range' 1 solver.formula.num_variables).foldl
    (fun a v => a.set v VAR_UNASSIGNED) solver.formula.assignment
  let reapplied := st.stack.reverse.foldl (fun a e => a.set e.var e.value) cleared
  { solver with
    assignments := st,
    formula := { solver.formula with assignment := reapplied } }

/-- C `should_restart`. -/
def should_restart (solver : dpll_solver_t) : Bool :=
  solver.conflicts_since_restart ≥ solver.config.restart_threshold

/-- C `perform_restart`. -/
def perform_restart (solver : dpll_solver_t) : dpll_solver_t :=
  let s1 := unassign_until_level solver 0
  { s1 with stats := { s1.stats with restarts := s1.stats.restarts + 1 } }

/-! ### DPLL driver (solver.c, `dpll_algorithm` / `solver_solve`) -/

/-- The main `while (iterations < max_iterations)` loop of C `dpll_algorithm`.
    `choose_var` stands for `choose_decision_variable` (strategy dispatch),
    `timeout_at iter` for `SOLVER_TIMEOUT_CHECK` at iteration `iter`, and the
    fuel counts the remaining iterations (initially 1000).  The `progress_made`
    guard of the C loop is omitted: every path that reaches it has just made a
    decision, so it never fires. -/
def dpll_loop (choose_var : dpll_solver_t → Nat) (timeout_at : Nat → Bool) :
    Nat → Nat → dpll_solver_t → solver_result_t × dpll_solver_t
  | 0, _, solver => (SOLVER_TIMEOUT, solver)
  | fuel + 1, iter, solver =>
    if timeout_at iter then (SOLVER_TIMEOUT, solver)
    else if is_formula_satisfied solver then (SOLVER_SATISFIABLE, solver)
    else if has_conflict solver then
      match backtrack solver with
      | (false, s1) => (SOLVER_UNSATISFIABLE, s1)
      | (true, s1) => dpll_loop choose_var timeout_at fuel (iter + 1) s1
    else
      let s1 := if solver.config.enable_unit_propagation then
                  (unit_propagation solver).2
                else solver
      if solver.config.enable_unit_propagation && has_conflict s1 then
        match backtrack s1 with
        | (false, s2) => (SOLVER_UNSATISFIABLE, s2)
        | (true, s2) => dpll_loop choose_var timeout_at fuel (iter + 1) s2
      else
        let s2 := if solver.config.enable_pure_literal then
                    (pure_literal_elimination s1).2
                  else s1
        if solver.config.enable_pure_literal && has_conflict s2 then
          match backtrack s2 with
          | (false, s3) => (SOLVER_UNSATISFIABLE, s3)
          | (true, s3) => dpll_loop choose_var timeout_at fuel (iter + 1) s3
        else
          let decision_var := choose_var s2
          if decision_var == 0 then
            if is_formula_satisfied s2 then (SOLVER_SATISFIABLE, s2)
            else (SOLVER_UNSATISFIABLE, s2)
          else
            match assign_variable s2 decision_var
                (choose_decision_value s2 decision_var) true with
            | none => (SOLVER_ERROR, s2)
            | some s3 =>
              let s4 : dpll_solver_t :=
                { s3 with stats := { s3.stats with decisions := s3.stats.decisions + 1 } }
              if s4.config.max_decisions > 0 &&
                  s4.stats.decisions ≥ s4.config.max_decisions then
                (SOLVER_UNKNOWN, s4)
              else if s4.config.enable_restarts && should_restart s4 then
                dpll_loop choose_var timeout_at fuel (iter + 1)
                  { (perform_restart s4) with conflicts_since_restart := 0 }
              else
                dpll_loop choose_var timeout_at fuel (iter + 1) s4

/-- C `dpll_algorithm` (`max_iterations = 1000`; exhausting them returns
    SOLVER_TIMEOUT, as in the source). -/
def dpll_algorithm (choose_var : dpll_solver_t → Nat) (timeout_at : Nat → Bool)
    (solver : dpll_solver_t) : solver_result_t × dpll_solver_t :=
  dpll_loop choose_var timeout_at 1000 0 solver

/-- The `do { ... } while (changed)` loop of C `preprocess_formula`
    (pure-literal pass, then unit propagation, repeat while something
    changed; stop early on an explicit conflict). -/
def preprocess_loop : Nat → dpll_solver_t → dpll_solver_t
  | 0, solver => solver
  | fuel + 1, solver =>
    let before := solver.assignments.stack.length
    let r1 := pure_literal_elimination solver
    let s2 := (unit_propagation r1.2).2
    let changed := r1.1 || decide (s2.assignments.stack.length ≠ before)
    if has_conflict s2 then s2
    else if changed then preprocess_loop fuel s2
    else s2

/-- C `preprocess_formula`. -/
def preprocess_formula (solver : dpll_solver_t) : dpll_solver_t :=
  preprocess_loop (numUnassigned solver + 1) solver

/-- C `solver_solve`, without the timers: preprocessing (with its early
    SATISFIABLE / UNSATISFIABLE exits), the `max_decisions == 0 → 1000`
    default, then `dpll_algorithm`.  The `timeout_seconds == 0 → 5.0` default
    only affects the wall-clock oracle. -/
def solver_solve (choose_var : dpll_solver_t → Nat) (timeout_at : Nat → Bool)
    (solver : dpll_solver_t) : solver_result_t × dpll_solver_t :=
  let s1 := if solver.config.enable_preprocessing then preprocess_formula solver
            else solver
  if solver.config.enable_preprocessing && s1.formula.clauses.length == 0 then
    (SOLVER_SATISFIABLE, s1)
  else if solver.config.enable_preprocessing && has_conflict s1 then
    (SOLVER_UNSATISFIABLE, s1)
  else
    let s2 : dpll_solver_t :=
      { s1 with config := { s1.config with
          max_decisions := if s1.config.max_decisions == 0 then 1000
                           else s1.config.max_decisions } }
    dpll_algorithm choose_var timeout_at s2

/-! ## Output completion (main.c, `print_class_model_line`) -/

/-- `print_class_model_line` prints bit `(val == VAR_TRUE) ? 1 : 0`: variables
    left VAR_UNASSIGNED are completed to VAR_FALSE. -/
def completed_assignment (assignment : List var_assignment_t) :
    List var_assignment_t :=
  assignment.map fun val => if val == VAR_TRUE then VAR_TRUE else VAR_FALSE

/-! ## Parser fragment (parser.c / utils.c) -/

/-- C enum `parse_result_t` (the kinds reachable in the modelled fragment). -/
inductive parse_result_t
  | PARSE_OK
  | PARSE_ERROR_INVALID_CLAUSE
  | PARSE_ERROR_VARIABLE_OUT_OF_RANGE
  | PARSE_ERROR_CLAUSE_NOT_TERMINATED
  deriving DecidableEq

open parse_result_t

/-- C `is_valid_variable` (utils.c). -/
def is_valid_variable (var : Int) (max_variables : Int) : Bool :=
  var ≥ 1 && var ≤ max_variables

/-- C `is_valid_literal` (utils.c). -/
def is_valid_literal (lit : Int) (max_variables : Int) : Bool :=
  if lit == 0 then false
  else is_valid_variable (if lit > 0 then lit else -lit) max_variables

/-- C `clause_add_literal`: appends unless the exact literal is already
    present (duplicate insertion is a no-op). -/
def clause_add_literal (clause : clause_t) (literal : Int) : clause_t :=
  if literal == 0 then clause
  else if clause.literals.contains literal then clause
  else { literals := clause.literals ++ [literal] }

/-- Token loop of C `parse_clause_line`, over the whitespace-separated tokens
    of the line already read as integers (`strtok` + `parse_int`; lines with
    non-numeric tokens take the PARSE_ERROR_INVALID_CLAUSE exit before this
    loop's logic applies and are outside this model). -/
def parse_clause_line_go (max_variables : Int) :
    List Int → clause_t → parse_result_t × clause_t
  | [], clause => (PARSE_ERROR_CLAUSE_NOT_TERMINATED, clause)
  | token :: rest, clause =>
    if token == 0 then (PARSE_OK, clause)
    else if !is_valid_literal token max_variables then
      (PARSE_ERROR_VARIABLE_OUT_OF_RANGE, clause)
    else
      parse_clause_line_go max_variables rest (clause_add_literal clause token)

/-- C `parse_clause_line` on the integer tokens of one clause line. -/
def parse_clause_line (tokens : List Int) (max_variables : Int) :
    parse_result_t × clause_t :=
  parse_clause_line_go max_variables tokens { literals := [] }

/-- C `clause_is_tautology` (the C loop ranges over pairs `i < j`; the
    symmetric double scan below accepts exactly the same clauses). -/
def clause_is_tautology (clause : clause_t) : Bool :=
  clause.literals.any fun liti =>
    clause.literals.any fun litj =>
      literal_variable liti == literal_variable litj &&
      !(literal_is_positive liti == literal_is_positive litj)

/-- The clause-line handler of C `parse_dimacs` (parser.c): parse the line
    into a fresh clause; on any error the clause is destroyed and the error
    returned, the formula untouched; empty and tautological clauses are
    dropped; otherwise the clause is added to the formula. -/
def process_clause_line (formula : cnf_formula_t) (tokens : List Int) :
    Option parse_result_t × cnf_formula_t :=
  let r := parse_clause_line tokens (Int.ofNat formula.num_variables)
  match r with
  | (PARSE_OK, clause) =>
    if clause.literals.length == 0 then (none, formula)
    else if clause_is_tautology clause then (none, formula)
    else (none, { formula with clauses := formula.clauses ++ [clause] })
  | (err, _) => (some err, formula)

/-! ## Helper states for concrete witnesses -/

/-- The solver configuration used by the concrete witness states (all
    simplifications on, restarts off: the library defaults with the
    driver's limit defaults substituted). -/
def mk_config : solver_config_t :=
  { enable_pure_literal := true, enable_unit_propagation := true,
    enable_preprocessing := true, enable_restarts := false,
    max_decisions := 1000, restart_threshold := 1000 }

/-- A freshly created solver on the formula with `n` variables and the given
    clauses, as built by `cnf_create` + `cnf_add_clause` + `solver_create`. -/
def mk_solver (n : Nat) (cls : List (List Int)) : dpll_solver_t :=
  { formula := { clauses := cls.map (fun l => { literals := l }),
                 num_variables := n,
                 assignment := List.replicate (n + 1) VAR_UNASSIGNED },
    assignments := { stack := [], decision_level := 0 },
    config := mk_config,
    stats := { decisions := 0, propagations := 0, conflicts := 0, restarts := 0 },
    conflicts_since_restart := 0 }

/-- A solver state on one variable with the single decision x1 ↦ TRUE on the
    stack (as left by `assign_variable(solver, 1, VAR_TRUE, true)`). -/
def decided_state : dpll_solver_t :=
  (assign_variable (mk_solver 1 []) 1 VAR_TRUE true).getD (mk_solver 1 [])

/-- Specification predicate of the decision-level bookkeeping: the stored
    `decision_level` equals the number of live entries with
    `is_decision == true`. -/
def level_matches (st : assignment_stack_t) : Prop :=
  st.decision_level = st.stack.countP (fun e => e.is_decision)

instance (st : assignment_stack_t) : Decidable (level_matches st) :=
  inferInstanceAs (Decidable (_ = _))

/-! ## Lemmas about the assignment vector -/

theorem assignGet_eq_getD (a : List var_assignment_t) (v : Nat) :
    assignGet a v = (a[v]?).getD VAR_UNASSIGNED := by
  simp [assignGet, List.getD_eq_getElem?_getD]

theorem assignGet_set_self (a : List var_assignment_t) (v : Nat)
    (x : var_assignment_t) (h : v < a.length) : assignGet (a.set v x) v = x := by
  simp [assignGet_eq_getD, List.getElem?_set, h]

theorem assignGet_set_ne (a : List var_assignment_t) (v w : Nat)
    (x : var_assignment_t) (h : v ≠ w) : assignGet (a.set v x) w = assignGet a w := by
  simp [assignGet_eq_getD, List.getElem?_set, h]

theorem assignGet_ge_length (a : List var_assignment_t) (v : Nat)
    (h : a.length ≤ v) : assignGet a v = VAR_UNASSIGNED := by
  simp [assignGet_eq_getD, List.getElem?_eq_none (by omega : a.length ≤ v)]

/-! ## Lemmas about the clause evaluation primitives -/

/-- The satisfying literal of a satisfied clause blocks `clause_is_unit`:
    the scan of `clause_is_unit` returns none as soon as it meets it (or
    earlier). -/
theorem clause_is_unit_go_none_of_sat (a : List var_assignment_t)
    (lits : List Int) (acc : Option Int) (cnt : Nat)
    (h : ∃ lit ∈ lits, literal_value_satisfies (literal_is_positive lit)
          (assignGet a (literal_variable lit)) = true) :
    clause_is_unit_go a lits acc cnt = none := by
  induction lits generalizing acc cnt with
  | nil => simp at h
  | cons lit rest ih =>
    obtain ⟨w, hw, hsat⟩ := h
    simp only [List.mem_cons] at hw
    by_cases hhead : literal_value_satisfies (literal_is_positive lit)
        (assignGet a (literal_variable lit)) = true
    · simp [clause_is_unit_go, hhead]
    · have hwrest : w ∈ rest := by
        rcases hw with rfl | hw
        · exact absurd hsat hhead
        · exact hw
      simp only [clause_is_unit_go, hhead]
      simp only [Bool.false_eq_true, if_false]
      split
      · split
        · rfl
        · exact ih _ _ ⟨w, hwrest, hsat⟩
      · exact ih _ _ ⟨w, hwrest, hsat⟩

/-- On a clause that is already satisfied, `clause_is_unit` returns none. -/
theorem clause_is_unit_of_satisfied (clause : clause_t) (a : List var_assignment_t)
    (h : clause_is_satisfied clause a = true) : clause_is_unit clause a = none := by
  simp only [clause_is_satisfied, List.any_eq_true] at h
  exact clause_is_unit_go_none_of_sat a clause.literals none 0 h

/-- The literal returned by the `clause_is_unit` scan is unassigned (the scan
    records a literal only at `var_value == VAR_UNASSIGNED`). -/
theorem clause_is_unit_go_unassigned (a : List var_assignment_t)
    (lits : List Int) (acc : Option Int) (cnt : Nat) (l : Int)
    (hacc : ∀ m, acc = some m → assignGet a (literal_variable m) = VAR_UNASSIGNED)
    (h : clause_is_unit_go a lits acc cnt = some l) :
    assignGet a (literal_variable l) = VAR_UNASSIGNED := by
  induction lits generalizing acc cnt with
  | nil =>
    simp only [clause_is_unit_go] at h
    split at h
    · exact hacc l h
    · exact absurd h (by simp)
  | cons lit rest ih =>
    simp only [clause_is_unit_go] at h
    split at h
    · exact absurd h (by simp)
    · split at h
      · split at h
        · exact absurd h (by simp)
        · rename_i hval _
          exact ih (some lit) (cnt + 1)
            (by intro m hm; injection hm with hm; subst hm; simpa using hval) h
      · exact ih acc cnt hacc h

/-- The literal returned by the `clause_is_unit` scan is either a literal of
    the scanned list or the incoming accumulator. -/
theorem clause_is_unit_go_mem (a : List var_assignment_t)
    (lits : List Int) (acc : Option Int) (cnt : Nat) (l : Int)
    (h : clause_is_unit_go a lits acc cnt = some l) :
    l ∈ lits ∨ acc = some l := by
  induction lits generalizing acc cnt with
  | nil =>
    simp only [clause_is_unit_go] at h
    split at h
    · exact Or.inr h
    · exact absurd h (by simp)
  | cons lit rest ih =>
    simp only [clause_is_unit_go] at h
    split at h
    · exact absurd h (by simp)
    · split at h
      · split at h
        · exact absurd h (by simp)
        · rcases ih (some lit) (cnt + 1) h with h2 | h2
          · exact Or.inl (List.mem_cons_of_mem _ h2)
          · injection h2 with h2
            subst h2
            exact Or.inl (List.mem_cons_self _ _)
      · rcases ih acc cnt h with h2 | h2
        · exact Or.inl (List.mem_cons_of_mem _ h2)
        · exact Or.inr h2

/-- `clause_is_unit` returns an unassigned literal of the clause. -/
theorem clause_is_unit_some (clause : clause_t) (a : List var_assignment_t)
    (l : Int) (h : clause_is_unit clause a = some l) :
    assignGet a (literal_variable l) = VAR_UNASSIGNED ∧ l ∈ clause.literals := by
  refine ⟨clause_is_unit_go_unassigned a clause.literals none 0 l
    (by intro m hm; cases hm) h, ?_⟩
  rcases clause_is_unit_go_mem a clause.literals none 0 l h with h2 | h2
  · exact h2
  · cases h2

/-- A satisfied clause is not conflicting (the satisfying literal is not
    falsified). -/
theorem clause_is_conflicting_of_satisfied (clause : clause_t)
    (a : List var_assignment_t) (h : clause_is_satisfied clause a = true) :
    clause_is_conflicting clause a = false := by
  simp only [clause_is_satisfied, List.any_eq_true] at h
  obtain ⟨lit, hmem, hsat⟩ := h
  simp only [clause_is_conflicting, List.all_eq_false]
  exact ⟨lit, hmem, by simp [hsat]⟩

/-! ## Claim C8: empty-clause edge cases -/

/-- C8: for every assignment, a clause with zero literals is conflicting,
    not satisfied, and not unit; and on a clause already satisfied,
    `clause_is_unit` returns none. -/
theorem C8_empty_clause_edge_cases :
    (∀ a : List var_assignment_t,
      clause_is_conflicting { literals := [] } a = true ∧
      clause_is_satisfied { literals := [] } a = false ∧
      clause_is_unit { literals := [] } a = none) ∧
    (∀ (clause : clause_t) (a : List var_assignment_t),
      clause_is_satisfied clause a = true → clause_is_unit clause a = none) := by
  exact ⟨fun a => ⟨rfl, rfl, rfl⟩,
         fun clause a h => clause_is_unit_of_satisfied clause a h⟩

/-- Witness for C8: the clause (x1) satisfied by x1 ↦ TRUE is not unit. -/
theorem C8_witness :
    clause_is_satisfied { literals := [1] } [VAR_UNASSIGNED, VAR_TRUE] = true ∧
    clause_is_unit { literals := [1] } [VAR_UNASSIGNED, VAR_TRUE] = none :=
  ⟨by decide, C8_empty_clause_edge_cases.2 _ _ (by decide)⟩

/-! ## Lemmas about assign_variable and unit propagation -/

/-- Unfolding of a successful `assign_variable`. -/
theorem assign_variable_some (solver : dpll_solver_t) (var : Nat)
    (value : var_assignment_t) (is_decision : Bool) (s1 : dpll_solver_t)
    (h : assign_variable solver var value is_decision = some s1) :
    s1.formula.clauses = solver.formula.clauses ∧
    s1.formula.num_variables = solver.formula.num_variables ∧
    s1.formula.assignment = solver.formula.assignment.set var value ∧
    s1.assignments = assignment_stack_push solver.assignments var value is_decision ∧
    s1.config = solver.config ∧ s1.stats = solver.stats ∧
    s1.conflicts_since_restart = solver.conflicts_since_restart ∧
    1 ≤ var ∧ var ≤ solver.formula.num_variables := by
  simp only [assign_variable] at h
  split at h
  · cases h
  · rename_i hcond
    simp only [Bool.or_eq_true, beq_iff_eq, decide_eq_true_eq, not_or] at hcond
    injection h with h
    subst h
    refine ⟨rfl, rfl, rfl, rfl, rfl, rfl, rfl, ?_, ?_⟩ <;> omega

/-- `assign_variable` fails exactly on variable 0 or out of range. -/
theorem assign_variable_none (solver : dpll_solver_t) (var : Nat)
    (value : var_assignment_t) (is_decision : Bool)
    (h : assign_variable solver var value is_decision = none) :
    var = 0 ∨ var > solver.formula.num_variables := by
  simp only [assign_variable] at h
  split at h
  · rename_i hcond
    simp only [Bool.or_eq_true, beq_iff_eq, decide_eq_true_eq] at hcond
    exact hcond
  · cases h

/-- The conflict counters survive a propagation pass, and the only possible
    early return of a pass is SOLVER_MEMORY_ERROR: the `IS_VARIABLE_ASSIGNED`
    branch is unreachable because the unit literal is always unassigned. -/
theorem up_pass_counters (cs : List clause_t) (solver : dpll_solver_t) (p : Bool) :
    (up_pass solver cs p).2.1.stats.conflicts = solver.stats.conflicts ∧
    (up_pass solver cs p).2.1.conflicts_since_restart = solver.conflicts_since_restart ∧
    (∀ r, (up_pass solver cs p).1 = some r → r = SOLVER_MEMORY_ERROR) := by
  induction cs generalizing solver p with
  | nil => exact ⟨rfl, rfl, fun r h => by cases h⟩
  | cons clause rest ih =>
    simp only [up_pass]
    split
    · exact ih solver p
    · split
      · exact ih solver p
      · rename_i unit_literal hunit
        have hun := (clause_is_unit_some clause solver.formula.assignment
          unit_literal hunit).1
        have hassigned : IS_VARIABLE_ASSIGNED solver
            (literal_variable unit_literal) = false := by
          simp [IS_VARIABLE_ASSIGNED, hun]
        rw [hassigned]
        simp only [Bool.false_eq_true, if_false]
        split
        · rename_i hnone
          exact ⟨rfl, rfl, fun r h => by injection h with h; exact h.symm⟩
        · rename_i s1 hsome
          obtain ⟨_, _, _, _, _, hstats, hcsr, _, _⟩ :=
            assign_variable_some solver _ _ _ s1 hsome
          have := ih { s1 with stats :=
            { s1.stats with propagations := s1.stats.propagations + 1 } } true
          refine ⟨?_, ?_, this.2.2⟩
          · rw [this.1]; simp [hstats]
          · rw [this.2.1]; simp [hcsr]

/-- The conflict counters survive the whole propagation loop. -/
theorem unit_propagation_loop_counters (fuel : Nat) (solver : dpll_solver_t) :
    (unit_propagation_loop fuel solver).2.1.stats.conflicts = solver.stats.conflicts ∧
    (unit_propagation_loop fuel solver).2.1.conflicts_since_restart =
      solver.conflicts_since_restart := by
  induction fuel generalizing solver with
  | zero => exact ⟨rfl, rfl⟩
  | succ fuel ih =>
    have hp := up_pass_counters solver.formula.clauses solver false
    rcases hup : up_pass solver solver.formula.clauses false with ⟨r0, s1, p0⟩
    rw [hup] at hp
    simp only [unit_propagation_loop, hup]
    cases r0 with
    | some r => exact ⟨hp.1, hp.2.1⟩
    | none =>
      cases p0 with
      | true =>
        have := ih s1
        exact ⟨this.1.trans hp.1, this.2.trans hp.2.1⟩
      | false =>
        by_cases hs : cnf_is_satisfied s1.formula = true
        · simp only [hs, if_true]
          exact ⟨hp.1, hp.2.1⟩
        · simp only [eq_false_of_ne_true hs, if_false]
          exact ⟨hp.1, hp.2.1⟩

/-! ## Claim C10: the assigned-unit branch is unreachable -/

/-- C10: whenever `clause_is_unit` returns a literal, its variable is
    UNASSIGNED; hence the branch of `unit_propagation` for an already
    assigned unit variable (including its early return that bumps
    `conflicts_since_restart`) is unreachable, and `unit_propagation`
    never changes the conflict counters. -/
theorem C10_unit_branch_unreachable :
    (∀ (clause : clause_t) (a : List var_assignment_t) (l : Int),
      clause_is_unit clause a = some l →
      assignGet a (literal_variable l) = VAR_UNASSIGNED) ∧
    (∀ (fuel : Nat) (solver : dpll_solver_t),
      (unit_propagation_loop fuel solver).2.1.stats.conflicts =
        solver.stats.conflicts ∧
      (unit_propagation_loop fuel solver).2.1.conflicts_since_restart =
        solver.conflicts_since_restart) ∧
    (∀ solver : dpll_solver_t,
      (unit_propagation solver).2.stats.conflicts = solver.stats.conflicts ∧
      (unit_propagation solver).2.conflicts_since_restart =
        solver.conflicts_since_restart) := by
  refine ⟨fun clause a l h => (clause_is_unit_some clause a l h).1,
          unit_propagation_loop_counters,
          fun solver => unit_propagation_loop_counters _ solver⟩

/-- Witness for C10 on the unit clause (x1 ∨ ¬x2) under x1 ↦ FALSE. -/
theorem C10_witness :
    clause_is_unit { literals := [1, -2] }
      [VAR_UNASSIGNED, VAR_FALSE, VAR_UNASSIGNED] = some (-2) ∧
    assignGet [VAR_UNASSIGNED, VAR_FALSE, VAR_UNASSIGNED]
      (literal_variable (-2)) = VAR_UNASSIGNED :=
  ⟨by decide, C10_unit_branch_unreachable.1 { literals := [1, -2] } _ (-2) (by decide)⟩

/-! ## Structure preservation and progress of unit propagation -/

/-- A propagation pass does not touch the clause list, the variable count,
    the assignment length, or the configuration. -/
theorem up_pass_preserves (cs : List clause_t) (solver : dpll_solver_t) (p : Bool) :
    (up_pass solver cs p).2.1.formula.clauses = solver.formula.clauses ∧
    (up_pass solver cs p).2.1.formula.num_variables = solver.formula.num_variables ∧
    (up_pass solver cs p).2.1.formula.assignment.length =
      solver.formula.assignment.length ∧
    (up_pass solver cs p).2.1.config = solver.config := by
  induction cs generalizing solver p with
  | nil => exact ⟨rfl, rfl, rfl, rfl⟩
  | cons clause rest ih =>
    simp only [up_pass]
    split
    · exact ih solver p
    · split
      · exact ih solver p
      · rename_i unit_literal hunit
        have hun := (clause_is_unit_some clause solver.formula.assignment
          unit_literal hunit).1
        have hassigned : IS_VARIABLE_ASSIGNED solver
            (literal_variable unit_literal) = false := by
          simp [IS_VARIABLE_ASSIGNED, hun]
        rw [hassigned]
        simp only [Bool.false_eq_true, if_false]
        split
        · exact ⟨rfl, rfl, rfl, rfl⟩
        · rename_i s1 hsome
          obtain ⟨hcl, hnv, hassn, _, hcfg, _, _, _, _⟩ :=
            assign_variable_some solver _ _ _ s1 hsome
          have := ih { s1 with stats :=
            { s1.stats with propagations := s1.stats.propagations + 1 } } true
          refine ⟨this.1.trans hcl, this.2.1.trans hnv, ?_, this.2.2.2.trans hcfg⟩
          rw [this.2.2.1]
          simp only [hassn, List.length_set]

/-- Once set, the propagated flag stays set through the rest of the pass. -/
theorem up_pass_flag_mono (cs : List clause_t) (solver : dpll_solver_t) :
    (up_pass solver cs true).2.2 = true := by
  induction cs generalizing solver with
  | nil => rfl
  | cons clause rest ih =>
    simp only [up_pass]
    split
    · exact ih solver
    · split
      · exact ih solver
      · rename_i unit_literal hunit
        have hun := (clause_is_unit_some clause solver.formula.assignment
          unit_literal hunit).1
        have hassigned : IS_VARIABLE_ASSIGNED solver
            (literal_variable unit_literal) = false := by
          simp [IS_VARIABLE_ASSIGNED, hun]
        rw [hassigned]
        simp only [Bool.false_eq_true, if_false]
        split
        · rfl
        · exact ih _

/-- A pass whose propagated flag stayed false changed nothing, and every
    clause it scanned was satisfied or not unit. -/
theorem up_pass_no_prop (cs : List clause_t) (solver s1 : dpll_solver_t)
    (h : up_pass solver cs false = (none, s1, false)) :
    s1 = solver ∧ ∀ c ∈ cs,
      clause_is_satisfied c solver.formula.assignment = true ∨
      clause_is_unit c solver.formula.assignment = none := by
  induction cs generalizing solver with
  | nil =>
    simp only [up_pass] at h
    injection h with _ h
    injection h with h _
    exact ⟨h.symm, by intro c hc; cases hc⟩
  | cons clause rest ih =>
    simp only [up_pass] at h
    split at h
    · rename_i hsat
      have := ih solver h
      refine ⟨this.1, ?_⟩
      intro c hc
      rcases List.mem_cons.mp hc with rfl | hc
      · exact Or.inl hsat
      · exact this.2 c hc
    · split at h
      · rename_i hnone
        have := ih solver h
        refine ⟨this.1, ?_⟩
        intro c hc
        rcases List.mem_cons.mp hc with rfl | hc
        · exact Or.inr hnone
        · exact this.2 c hc
      · rename_i unit_literal hunit
        have hun := (clause_is_unit_some clause solver.formula.assignment
          unit_literal hunit).1
        have hassigned : IS_VARIABLE_ASSIGNED solver
            (literal_variable unit_literal) = false := by
          simp [IS_VARIABLE_ASSIGNED, hun]
        rw [hassigned] at h
        simp only [Bool.false_eq_true, if_false] at h
        split at h
        · simp at h
        · rename_i s2 hsome
          have hflag2 := up_pass_flag_mono rest
            { s2 with stats := { s2.stats with propagations := s2.stats.propagations + 1 } }
          rw [h] at hflag2
          cases hflag2

/-- Counting helper: a pointwise-smaller predicate with a strict witness has
    a strictly smaller count. -/
theorem countP_lt_of_pointwise (l : List Nat) (p q : Nat → Bool)
    (hmono : ∀ x ∈ l, q x = true → p x = true)
    (v : Nat) (hv : v ∈ l) (hp : p v = true) (hq : q v = false) :
    l.countP q < l.countP p := by
  induction l with
  | nil => cases hv
  | cons x xs ih =>
    rcases List.mem_cons.mp hv with rfl | hvx
    · have hle : xs.countP q ≤ xs.countP p :=
        List.countP_mono_left (fun y hy => hmono y (List.mem_cons_of_mem _ hy))
      simp [List.countP_cons, hp, hq]
      omega
    · have hlt := ih (fun y hy => hmono y (List.mem_cons_of_mem _ hy)) hvx
      by_cases hqx : q x = true
      · have hpx := hmono x (List.mem_cons_self _ _) hqx
        simp [List.countP_cons, hqx, hpx]
        omega
      · simp only [List.countP_cons, eq_false_of_ne_true hqx]
        simp
        split <;> omega

/-- Assigning an unassigned in-range variable a real value strictly decreases
    `numUnassigned`. -/
theorem numUnassigned_lt_of_assign (solver s1 : dpll_solver_t) (var : Nat)
    (value : var_assignment_t) (is_decision : Bool)
    (hlen : solver.formula.assignment.length = solver.formula.num_variables + 1)
    (hUn : assignGet solver.formula.assignment var = VAR_UNASSIGNED)
    (hval : value ≠ VAR_UNASSIGNED)
    (h : assign_variable solver var value is_decision = some s1) :
    numUnassigned s1 < numUnassigned solver := by
  obtain ⟨_, hnv, hassn, _, _, _, _, hlo, hhi⟩ :=
    assign_variable_some solver _ _ _ s1 h
  have hvlen : var < solver.formula.assignment.length := by omega
  have hset : assignGet s1.formula.assignment var = value := by
    rw [hassn]; exact assignGet_set_self _ _ _ hvlen
  simp only [numUnassigned, hnv]
  apply countP_lt_of_pointwise _ _ _ ?_ var
    (List.mem_range'_1.mpr ⟨hlo, by omega⟩) (by simp [hUn]) (by simp [hset, hval])
  intro x _ hx
  simp only [beq_iff_eq] at hx ⊢
  by_cases hxv : var = x
  · subst hxv
    rw [hset] at hx
    exact absurd hx hval
  · rw [hassn, assignGet_set_ne _ _ _ _ hxv] at hx
    exact hx

/-- Progress of one pass: the assignment count never grows, the stack never
    shrinks, and a pass that sets the propagated flag strictly decreases
    `numUnassigned` and strictly grows the stack. -/
theorem up_pass_progress (cs : List clause_t) (solver s1 : dpll_solver_t)
    (p p1 : Bool)
    (hlen : solver.formula.assignment.length = solver.formula.num_variables + 1)
    (h : up_pass solver cs p = (none, s1, p1)) :
    numUnassigned s1 ≤ numUnassigned solver ∧
    solver.assignments.stack.length ≤ s1.assignments.stack.length ∧
    (p1 = true → p = true ∨
      (numUnassigned s1 < numUnassigned solver ∧
       solver.assignments.stack.length < s1.assignments.stack.length)) := by
  induction cs generalizing solver p with
  | nil =>
    simp only [up_pass] at h
    injection h with _ h
    injection h with h hflag
    subst h
    exact ⟨le_refl _, le_refl _, fun hp1 => Or.inl (hflag ▸ hp1)⟩
  | cons clause rest ih =>
    simp only [up_pass] at h
    split at h
    · exact ih solver p hlen h
    · split at h
      · exact ih solver p hlen h
      · rename_i unit_literal hunit
        have hun := (clause_is_unit_some clause solver.formula.assignment
          unit_literal hunit).1
        have hassigned : IS_VARIABLE_ASSIGNED solver
            (literal_variable unit_literal) = false := by
          simp [IS_VARIABLE_ASSIGNED, hun]
        rw [hassigned] at h
        simp only [Bool.false_eq_true, if_false] at h
        split at h
        · simp at h
        · rename_i s2 hsome
          obtain ⟨_, hnv, hassn, hstk, _, _, _, _, _⟩ :=
            assign_variable_some solver _ _ _ s2 hsome
          have hlt : numUnassigned s2 < numUnassigned solver :=
            numUnassigned_lt_of_assign solver s2 _ _ _ hlen hun
              (by split <;> simp) hsome
          have hstkgrow : solver.assignments.stack.length <
              s2.assignments.stack.length := by
            rw [hstk]; simp [assignment_stack_push]
          have hlen2 : s2.formula.assignment.length =
              s2.formula.num_variables + 1 := by
            rw [hassn, hnv, List.length_set]; exact hlen
          have := ih { s2 with stats :=
            { s2.stats with propagations := s2.stats.propagations + 1 } } true hlen2 h
          refine ⟨le_of_lt (lt_of_le_of_lt this.1 hlt), ?_, ?_⟩
          · exact le_trans (le_of_lt hstkgrow) this.2.1
          · intro _
            exact Or.inr ⟨lt_of_le_of_lt this.1 hlt,
              lt_of_lt_of_le hstkgrow this.2.1⟩

/-- With all clause literals in range, a pass never takes an early exit. -/
theorem up_pass_no_early (cs : List clause_t) (solver : dpll_solver_t) (p : Bool)
    (hWF : ∀ c ∈ cs, ∀ lit ∈ c.literals,
      1 ≤ literal_variable lit ∧
      literal_variable lit ≤ solver.formula.num_variables) :
    (up_pass solver cs p).1 = none := by
  induction cs generalizing solver p with
  | nil => rfl
  | cons clause rest ih =>
    simp only [up_pass]
    split
    · exact ih solver p (fun c hc => hWF c (List.mem_cons_of_mem _ hc))
    · split
      · exact ih solver p (fun c hc => hWF c (List.mem_cons_of_mem _ hc))
      · rename_i unit_literal hunit
        obtain ⟨hun, hmem⟩ := clause_is_unit_some clause
          solver.formula.assignment unit_literal hunit
        have hassigned : IS_VARIABLE_ASSIGNED solver
            (literal_variable unit_literal) = false := by
          simp [IS_VARIABLE_ASSIGNED, hun]
        rw [hassigned]
        simp only [Bool.false_eq_true, if_false]
        have hbounds := hWF clause (List.mem_cons_self _ _) unit_literal hmem
        split
        · rename_i hnone
          rcases assign_variable_none solver _ _ _ hnone with h0 | hgt <;> omega
        · rename_i s2 hsome
          obtain ⟨_, hnv, _, _, _, _, _, _, _⟩ :=
            assign_variable_some solver _ _ _ s2 hsome
          refine ih _ true ?_
          intro c hc
          have hb := hWF c (List.mem_cons_of_mem _ hc)
          simpa [hnv] using hb

/-- Fuel `numUnassigned + 1` always completes the propagation loop. -/
theorem unit_propagation_loop_completes (fuel : Nat) (solver : dpll_solver_t)
    (hlen : solver.formula.assignment.length = solver.formula.num_variables + 1)
    (hfuel : numUnassigned solver < fuel) :
    (unit_propagation_loop fuel solver).2.2 = true := by
  induction fuel generalizing solver with
  | zero => omega
  | succ fuel ih =>
    rcases hup : up_pass solver solver.formula.clauses false with ⟨r0, s1, p0⟩
    simp only [unit_propagation_loop, hup]
    cases r0 with
    | some r => rfl
    | none =>
      cases p0 with
      | true =>
        have hprog := up_pass_progress solver.formula.clauses solver s1
          false true hlen hup
        rcases hprog.2.2 rfl with h | h
        · cases h
        · have hpres := up_pass_preserves solver.formula.clauses solver false
          rw [hup] at hpres
          have hlen1 : s1.formula.assignment.length =
              s1.formula.num_variables + 1 := by
            rw [hpres.2.2.1, hpres.2.1]; exact hlen
          exact ih s1 hlen1 (by omega)
      | false =>
        by_cases hs : cnf_is_satisfied s1.formula = true
        · simp [hs]
        · simp [hs]

/-- After the loop completes (with well-formed literals), every clause of the
    final state is satisfied or not unit. -/
theorem unit_propagation_loop_final (fuel : Nat) (solver : dpll_solver_t)
    (r : solver_result_t) (s1 : dpll_solver_t)
    (hWF : ∀ c ∈ solver.formula.clauses, ∀ lit ∈ c.literals,
      1 ≤ literal_variable lit ∧
      literal_variable lit ≤ solver.formula.num_variables)
    (hlen : solver.formula.assignment.length = solver.formula.num_variables + 1)
    (hfuel : numUnassigned solver < fuel)
    (h : unit_propagation_loop fuel solver = (r, s1, true)) :
    ∀ c ∈ s1.formula.clauses,
      clause_is_satisfied c s1.formula.assignment = true ∨
      clause_is_unit c s1.formula.assignment = none := by
  induction fuel generalizing solver r with
  | zero => omega
  | succ fuel ih =>
    rcases hup : up_pass solver solver.formula.clauses false with ⟨r0, s2, p0⟩
    have hearly := up_pass_no_early solver.formula.clauses solver false hWF
    rw [hup] at hearly
    simp only at hearly
    subst hearly
    simp only [unit_propagation_loop, hup] at h
    have hpres := up_pass_preserves solver.formula.clauses solver false
    rw [hup] at hpres
    simp only at hpres
    cases p0 with
    | true =>
      have h2 : unit_propagation_loop fuel s2 = (r, s1, true) := h
      have hprog := up_pass_progress solver.formula.clauses solver s2
        false true hlen hup
      rcases hprog.2.2 rfl with hcontra | hlt
      · cases hcontra
      · exact ih s2 r
          (by rw [hpres.1, hpres.2.1]; exact hWF)
          (by rw [hpres.2.2.1, hpres.2.1]; exact hlen)
          (by omega) h2
    | false =>
      obtain ⟨heq, hall⟩ := up_pass_no_prop solver.formula.clauses solver s2 hup
      subst heq
      have h2 : (if cnf_is_satisfied s2.formula = true then
          (SOLVER_SATISFIABLE, s2, true) else (SOLVER_UNKNOWN, s2, true)) =
          (r, s1, true) := h
      have hs1 : s1 = s2 := by
        split at h2 <;> (injection h2 with _ h2; injection h2 with h2 _; exact h2.symm)
      subst hs1
      exact hall

/-! ## Claim C7: termination of unit propagation -/

/-- C7: a pass that propagates strictly grows the assignment stack and
    strictly decreases the number of unassigned variables (which is at most
    N), so `numUnassigned + 1` outer passes always reach the fixed point:
    the loop completes without exhausting its fuel. -/
theorem C7_unit_propagation_terminates :
    (∀ (solver s1 : dpll_solver_t),
      solver.formula.assignment.length = solver.formula.num_variables + 1 →
      up_pass solver solver.formula.clauses false = (none, s1, true) →
      solver.assignments.stack.length < s1.assignments.stack.length ∧
      numUnassigned s1 < numUnassigned solver) ∧
    (∀ solver : dpll_solver_t,
      numUnassigned solver ≤ solver.formula.num_variables) ∧
    (∀ (fuel : Nat) (solver : dpll_solver_t),
      solver.formula.assignment.length = solver.formula.num_variables + 1 →
      numUnassigned solver < fuel →
      (unit_propagation_loop fuel solver).2.2 = true) := by
  refine ⟨?_, ?_, unit_propagation_loop_completes⟩
  · intro solver s1 hlen h
    have hprog := up_pass_progress solver.formula.clauses solver s1 false true hlen h
    rcases hprog.2.2 rfl with hcontra | hlt
    · cases hcontra
    · exact ⟨hlt.2, hlt.1⟩
  · intro solver
    calc numUnassigned solver
        ≤ (List.range' 1 solver.formula.num_variables).length :=
          List.countP_le_length _
      _ = solver.formula.num_variables := by simp

/-- Witness for C7: a propagating pass and a completing loop on the formula
    (x1) ∧ (¬x1 ∨ x2) with two variables. -/
theorem C7_witness :
    (mk_solver 2 [[1], [-1, 2]]).formula.assignment.length =
      (mk_solver 2 [[1], [-1, 2]]).formula.num_variables + 1 ∧
    numUnassigned (mk_solver 2 [[1], [-1, 2]]) < 3 ∧
    (unit_propagation_loop 3 (mk_solver 2 [[1], [-1, 2]])).2.2 = true :=
  ⟨by decide, by decide,
   C7_unit_propagation_terminates.2.2 3 (mk_solver 2 [[1], [-1, 2]])
     (by decide) (by decide)⟩

/-! ## Claim C4: unit-propagation fixed point -/

/-- C4: when `unit_propagation` returns on a well-formed formula and the
    formula has no conflicting clause, no clause is unit under the final
    assignment. -/
theorem C4_unit_propagation_fixed_point (solver s1 : dpll_solver_t)
    (r : solver_result_t)
    (hWF : ∀ c ∈ solver.formula.clauses, ∀ lit ∈ c.literals,
      1 ≤ literal_variable lit ∧
      literal_variable lit ≤ solver.formula.num_variables)
    (hlen : solver.formula.assignment.length = solver.formula.num_variables + 1)
    (h : unit_propagation solver = (r, s1))
    (hnoconf : cnf_has_conflict s1.formula = false) :
    ∀ c ∈ s1.formula.clauses, clause_is_unit c s1.formula.assignment = none := by
  rcases hloop : unit_propagation_loop (numUnassigned solver + 1) solver
    with ⟨r0, s0, p0⟩
  have hcomp := unit_propagation_loop_completes (numUnassigned solver + 1)
    solver hlen (by omega)
  rw [hloop] at hcomp
  simp only at hcomp
  subst hcomp
  have hs : s1 = s0 ∧ r = r0 := by
    simp only [unit_propagation, hloop] at h
    injection h with h1 h2
    exact ⟨h2.symm, h1.symm⟩
  obtain ⟨hs1, hr⟩ := hs
  subst hs1
  subst hr
  have hfinal := unit_propagation_loop_final (numUnassigned solver + 1)
    solver r s1 hWF hlen (by omega) hloop
  intro c hc
  rcases hfinal c hc with hsat | hnone
  · exact clause_is_unit_of_satisfied c _ hsat
  · exact hnone

/-- Witness for C4 on the formula (x1) ∧ (¬x1 ∨ x2). -/
theorem C4_witness :
    cnf_has_conflict (unit_propagation (mk_solver 2 [[1], [-1, 2]])).2.formula
        = false ∧
    ∀ c ∈ (unit_propagation (mk_solver 2 [[1], [-1, 2]])).2.formula.clauses,
      clause_is_unit c
        (unit_propagation (mk_solver 2 [[1], [-1, 2]])).2.formula.assignment = none :=
  ⟨by decide,
   C4_unit_propagation_fixed_point (mk_solver 2 [[1], [-1, 2]]) _ _
     (by decide) (by decide) rfl (by decide)⟩

/-! ## Claim C5: pure-literal elimination preserves conflict-freedom -/

theorem list_all_congr {α : Type} (p q : α → Bool) :
    ∀ l : List α, (∀ x ∈ l, p x = q x) → l.all p = l.all q
  | [], _ => rfl
  | y :: ys, h => by
    simp only [List.all_cons]
    rw [h y (List.mem_cons_self _ _),
      list_all_congr p q ys (fun x hx => h x (List.mem_cons_of_mem _ hx))]

theorem literal_value_satisfies_unassigned (p : Bool) :
    literal_value_satisfies p VAR_UNASSIGNED = false := by
  cases p <;> rfl

/-- If no literal of the clause mentions `var`, setting `var` does not change
    the conflict status of the clause. -/
theorem clause_is_conflicting_set_untouched (clause : clause_t)
    (a : List var_assignment_t) (var : Nat) (x : var_assignment_t)
    (h : ∀ lit ∈ clause.literals, literal_variable lit ≠ var) :
    clause_is_conflicting clause (a.set var x) = clause_is_conflicting clause a := by
  simp only [clause_is_conflicting]
  apply list_all_congr
  intro lit hlit
  rw [assignGet_set_ne _ _ _ _ (fun hv => h lit hlit hv.symm)]

/-- Assigning a pure variable (no occurrence of the opposite polarity in any
    non-satisfied clause) falsifies no clause. -/
theorem pure_set_no_conflict (f : cnf_formula_t) (var : Nat) (pol : Bool)
    (hc : cnf_has_conflict f = false)
    (hUn : assignGet f.assignment var = VAR_UNASSIGNED)
    (hpure : appears_in_unsatisfied f var (!pol) = false) :
    ∀ c ∈ f.clauses, clause_is_conflicting c
      (f.assignment.set var (if pol then VAR_TRUE else VAR_FALSE)) = false := by
  intro c hcmem
  have hcold : clause_is_conflicting c f.assignment = false := by
    simp only [cnf_has_conflict, List.any_eq_false] at hc
    exact eq_false_of_ne_true (hc c hcmem)
  by_cases hvlen : var < f.assignment.length
  case neg =>
    rw [List.set_eq_of_length_le (by omega)]
    exact hcold
  case pos =>
  by_cases hsat : clause_is_satisfied c f.assignment = true
  · -- the satisfying literal does not mention var (var is unassigned),
    -- so the clause stays satisfied
    simp only [clause_is_satisfied, List.any_eq_true] at hsat
    obtain ⟨lit, hmem, hlit⟩ := hsat
    have hne : literal_variable lit ≠ var := by
      intro hv
      rw [hv, hUn, literal_value_satisfies_unassigned] at hlit
      cases hlit
    apply clause_is_conflicting_of_satisfied
    simp only [clause_is_satisfied, List.any_eq_true]
    exact ⟨lit, hmem, by rw [assignGet_set_ne _ _ _ _ (fun hv => hne hv.symm)]; exact hlit⟩
  · by_cases hhaspol : c.literals.any
        (fun lit => literal_variable lit == var && literal_is_positive lit == pol) = true
    · -- a literal of polarity pol on var becomes satisfied
      simp only [List.any_eq_true, Bool.and_eq_true, beq_iff_eq] at hhaspol
      obtain ⟨lit, hmem, hv, hp⟩ := hhaspol
      apply clause_is_conflicting_of_satisfied
      simp only [clause_is_satisfied, List.any_eq_true]
      refine ⟨lit, hmem, ?_⟩
      rw [hv, assignGet_set_self _ _ _ hvlen, hp]
      cases pol <;> rfl
    · by_cases hhasopp : c.literals.any
          (fun lit => literal_variable lit == var && literal_is_positive lit == !pol) = true
      · -- impossible: c is live and contains the opposite polarity
        exfalso
        simp only [appears_in_unsatisfied, List.any_eq_false] at hpure
        have := hpure c hcmem
        simp only [Bool.and_eq_true, Bool.not_eq_true] at this
        exact this ⟨by simp [eq_false_of_ne_true hsat], hhasopp⟩
      · -- no literal of c mentions var at all
        have hnone : ∀ lit ∈ c.literals, literal_variable lit ≠ var := by
          intro lit hmem hv
          by_cases hp : literal_is_positive lit = pol
          · exact absurd (by
              simp only [List.any_eq_true, Bool.and_eq_true, beq_iff_eq]
              exact ⟨lit, hmem, hv, hp⟩) hhaspol
          · exact absurd (by
              simp only [List.any_eq_true, Bool.and_eq_true, beq_iff_eq]
              exact ⟨lit, hmem, hv, by cases pol <;> cases hlp : literal_is_positive lit <;>
                simp_all⟩) hhasopp
        rw [clause_is_conflicting_set_untouched c f.assignment var _ hnone]
        exact hcold

/-- One step of the pure-literal variable loop preserves conflict-freedom. -/
theorem pure_literal_assign_no_conflict (solver : dpll_solver_t) (var : Nat)
    (hc : cnf_has_conflict solver.formula = false) :
    cnf_has_conflict ((pure_literal_assign solver var).2).formula = false := by
  simp only [pure_literal_assign]
  split
  · exact hc
  · rename_i hassigned
    have hUn : assignGet solver.formula.assignment var = VAR_UNASSIGNED := by
      simp only [IS_VARIABLE_ASSIGNED, Bool.not_eq_true, Bool.not_eq_false,
        beq_iff_eq] at hassigned
      simpa using hassigned
    split
    · rename_i hcond
      simp only [Bool.and_eq_true, Bool.not_eq_true] at hcond
      rcases hsome : assign_variable solver var VAR_TRUE false with _ | s1
      · simp only [hsome]; exact hc
      · simp only [hsome]
        obtain ⟨hcl, _, hassn, _, _, _, _, _, _⟩ :=
          assign_variable_some solver _ _ _ s1 hsome
        have := pure_set_no_conflict solver.formula var true hc hUn
          (by simpa using hcond.2)
        simp only [cnf_has_conflict, List.any_eq_false, hcl, hassn]
        intro c hcmem
        simpa using this c hcmem
    · split
      · rename_i hcond
        simp only [Bool.and_eq_true, Bool.not_eq_true] at hcond
        rcases hsome : assign_variable solver var VAR_FALSE false with _ | s1
        · simp only [hsome]; exact hc
        · simp only [hsome]
          obtain ⟨hcl, _, hassn, _, _, _, _, _, _⟩ :=
            assign_variable_some solver _ _ _ s1 hsome
          have := pure_set_no_conflict solver.formula var false hc hUn
            (by simpa using hcond.2)
          simp only [cnf_has_conflict, List.any_eq_false, hcl, hassn]
          intro c hcmem
          simpa using this c hcmem
      · exact hc

/-- The whole variable loop preserves conflict-freedom. -/
theorem pure_literal_loop_no_conflict (vs : List Nat) (solver : dpll_solver_t)
    (changed : Bool) (hc : cnf_has_conflict solver.formula = false) :
    cnf_has_conflict ((pure_literal_loop vs solver changed).2).formula = false := by
  induction vs generalizing solver changed with
  | nil => exact hc
  | cons var rest ih =>
    simp only [pure_literal_loop]
    exact ih _ _ (pure_literal_assign_no_conflict solver var hc)

/-- C5: if `cnf_has_conflict` is false before `pure_literal_elimination`,
    it is false after. -/
theorem C5_pure_literal_no_conflict (solver : dpll_solver_t)
    (hc : cnf_has_conflict solver.formula = false) :
    cnf_has_conflict ((pure_literal_elimination solver).2).formula = false :=
  pure_literal_loop_no_conflict _ solver false hc

/-- Witness for C5 on (x1 ∨ x2) ∧ (x1 ∨ ¬x2): x1 is pure positive. -/
theorem C5_witness :
    cnf_has_conflict (mk_solver 2 [[1, 2], [1, -2]]).formula = false ∧
    cnf_has_conflict
      ((pure_literal_elimination (mk_solver 2 [[1, 2], [1, -2]])).2).formula = false :=
  ⟨by decide, C5_pure_literal_no_conflict (mk_solver 2 [[1, 2], [1, -2]]) (by decide)⟩

/-! ## Claim C6: the most-frequent heuristic -/

/-- Postcondition of the `decision_most_frequent` loop over a strictly
    increasing variable list: either no scanned unassigned variable beats the
    incoming `max_frequency` and `best_var` is returned, or the result is the
    first unassigned scanned variable realizing the (strictly improved)
    maximal total frequency. -/
theorem decision_most_frequent_loop_post (solver : dpll_solver_t)
    (vs : List Nat) (best max : Nat) (hsorted : List.Pairwise (· < ·) vs) :
    (decision_most_frequent_loop solver vs best max = best ∧
      ∀ v ∈ vs, IS_VARIABLE_ASSIGNED solver v = false →
        total_frequency solver v ≤ max) ∨
    (decision_most_frequent_loop solver vs best max ∈ vs ∧
     IS_VARIABLE_ASSIGNED solver (decision_most_frequent_loop solver vs best max)
       = false ∧
     max < total_frequency solver (decision_most_frequent_loop solver vs best max) ∧
     ∀ v ∈ vs, IS_VARIABLE_ASSIGNED solver v = false →
       total_frequency solver v ≤
         total_frequency solver (decision_most_frequent_loop solver vs best max) ∧
       (total_frequency solver v =
          total_frequency solver (decision_most_frequent_loop solver vs best max) →
        decision_most_frequent_loop solver vs best max ≤ v)) := by
  induction vs generalizing best max with
  | nil => exact Or.inl ⟨rfl, by intro v hv; cases hv⟩
  | cons var rest ih =>
    have hsrest := (List.pairwise_cons.mp hsorted).2
    have hlt : ∀ v ∈ rest, var < v := fun v hv =>
      (List.pairwise_cons.mp hsorted).1 v hv
    by_cases hA : IS_VARIABLE_ASSIGNED solver var = true
    · simp only [decision_most_frequent_loop, hA, if_true]
      rcases ih best max hsrest with ⟨h1, h2⟩ | ⟨h1, h2, h3, h4⟩
      · refine Or.inl ⟨h1, ?_⟩
        intro v hv hun
        rcases List.mem_cons.mp hv with rfl | hv
        · rw [hA] at hun; cases hun
        · exact h2 v hv hun
      · refine Or.inr ⟨List.mem_cons_of_mem _ h1, h2, h3, ?_⟩
        intro v hv hun
        rcases List.mem_cons.mp hv with rfl | hv
        · rw [hA] at hun; cases hun
        · exact h4 v hv hun
    · have hA2 : IS_VARIABLE_ASSIGNED solver var = false :=
        eq_false_of_ne_true hA
      simp only [decision_most_frequent_loop, hA2]
      simp only [Bool.false_eq_true, if_false]
      by_cases hgt : total_frequency solver var > max
      · simp only [hgt, if_true]
        rcases ih var (total_frequency solver var) hsrest with
            ⟨h1, h2⟩ | ⟨h1, h2, h3, h4⟩
        · rw [h1]
          refine Or.inr ⟨List.mem_cons_self _ _, hA2, hgt, ?_⟩
          intro v hv hun
          rcases List.mem_cons.mp hv with rfl | hv
          · exact ⟨le_refl _, fun _ => le_refl _⟩
          · exact ⟨h2 v hv hun, fun _ => le_of_lt (hlt v hv)⟩
        · refine Or.inr ⟨List.mem_cons_of_mem _ h1, h2, lt_trans hgt h3, ?_⟩
          intro v hv hun
          rcases List.mem_cons.mp hv with rfl | hv
          · exact ⟨le_of_lt h3, fun he => absurd he (by omega)⟩
          · exact h4 v hv hun
      · simp only [hgt, if_false]
        rcases ih best max hsrest with ⟨h1, h2⟩ | ⟨h1, h2, h3, h4⟩
        · refine Or.inl ⟨h1, ?_⟩
          intro v hv hun
          rcases List.mem_cons.mp hv with rfl | hv
          · omega
          · exact h2 v hv hun
        · refine Or.inr ⟨List.mem_cons_of_mem _ h1, h2, h3, ?_⟩
          intro v hv hun
          rcases List.mem_cons.mp hv with rfl | hv
          · exact ⟨by omega, fun he => absurd he (by omega)⟩
          · exact h4 v hv hun

/-- C6 counterexample: with one variable and no clauses, variable 1 is
    unassigned but `decision_most_frequent` returns 0 (which is not an
    unassigned variable of the formula), because the loop only replaces
    `best_var` on a strictly positive total frequency. -/
theorem C6_counterexample :
    (mk_solver 1 []).formula.num_variables = 1 ∧
    IS_VARIABLE_ASSIGNED (mk_solver 1 []) 1 = false ∧
    decision_most_frequent (mk_solver 1 []) = 0 ∧
    decision_most_frequent (mk_solver 1 []) ∉
      List.range' 1 (mk_solver 1 []).formula.num_variables := by
  refine ⟨rfl, rfl, rfl, ?_⟩
  decide

/-- C6 amended: whenever some unassigned variable has a positive total
    frequency, `decision_most_frequent` returns an unassigned variable that
    maximizes `freq(+v) + freq(−v)` over the unassigned variables 1..N and is
    the smallest such maximizer; if every unassigned variable has total
    frequency 0 the function returns 0 instead. -/
theorem C6_most_frequent_amended (solver : dpll_solver_t) (w : Nat)
    (hw1 : w ∈ List.range' 1 solver.formula.num_variables)
    (hw2 : IS_VARIABLE_ASSIGNED solver w = false)
    (hw3 : 1 ≤ total_frequency solver w) :
    decision_most_frequent solver ∈ List.range' 1 solver.formula.num_variables ∧
    IS_VARIABLE_ASSIGNED solver (decision_most_frequent solver) = false ∧
    (∀ v ∈ List.range' 1 solver.formula.num_variables,
      IS_VARIABLE_ASSIGNED solver v = false →
      total_frequency solver v ≤ total_frequency solver (decision_most_frequent solver)) ∧
    (∀ v ∈ List.range' 1 solver.formula.num_variables,
      IS_VARIABLE_ASSIGNED solver v = false →
      total_frequency solver v = total_frequency solver (decision_most_frequent solver) →
      decision_most_frequent solver ≤ v) := by
  have hpost := decision_most_frequent_loop_post solver
    (List.range' 1 solver.formula.num_variables) 0 0
    (List.pairwise_lt_range' 1 solver.formula.num_variables)
  rcases hpost with ⟨_, h2⟩ | ⟨h1, h2, _, h4⟩
  · exact absurd (h2 w hw1 hw2) (by omega)
  · exact ⟨h1, h2, fun v hv hun => (h4 v hv hun).1, fun v hv hun he => (h4 v hv hun).2 he⟩

/-- Witness for C6 (amended) on (x1) ∧ (x1 ∨ x2) ∧ (¬x2): x1 and x2 tie with
    total frequency 2 and the heuristic picks x1. -/
theorem C6_witness :
    IS_VARIABLE_ASSIGNED (mk_solver 2 [[1], [1, 2], [-2]]) 1 = false ∧
    decision_most_frequent (mk_solver 2 [[1], [1, 2], [-2]]) ∈
      List.range' 1 2 ∧
    IS_VARIABLE_ASSIGNED (mk_solver 2 [[1], [1, 2], [-2]])
      (decision_most_frequent (mk_solver 2 [[1], [1, 2], [-2]])) = false :=
  have h := C6_most_frequent_amended (mk_solver 2 [[1], [1, 2], [-2]]) 1
    (by decide) (by decide) (by decide)
  ⟨by decide, h.1, h.2.1⟩

/-! ## Lemmas about clear_assignment -/

theorem clear_assignment_cons (a : List var_assignment_t)
    (e : assignment_entry_t) (rest : List assignment_entry_t) :
    clear_assignment a (e :: rest) =
      clear_assignment (a.set e.var VAR_UNASSIGNED) rest := rfl

theorem clear_assignment_length (es : List assignment_entry_t)
    (a : List var_assignment_t) :
    (clear_assignment a es).length = a.length := by
  induction es generalizing a with
  | nil => rfl
  | cons e rest ih =>
    rw [clear_assignment_cons, ih, List.length_set]

theorem assignGet_clear_not_mem (es : List assignment_entry_t)
    (a : List var_assignment_t) (v : Nat) (h : ∀ e ∈ es, e.var ≠ v) :
    assignGet (clear_assignment a es) v = assignGet a v := by
  induction es generalizing a with
  | nil => rfl
  | cons e rest ih =>
    rw [clear_assignment_cons,
      ih _ (fun x hx => h x (List.mem_cons_of_mem _ hx)),
      assignGet_set_ne _ _ _ _ (h e (List.mem_cons_self _ _))]

theorem assignGet_clear_mem (es : List assignment_entry_t)
    (a : List var_assignment_t) (v : Nat) (hv : ∃ e ∈ es, e.var = v)
    (hlen : v < a.length) :
    assignGet (clear_assignment a es) v = VAR_UNASSIGNED := by
  induction es generalizing a with
  | nil => simp at hv
  | cons e rest ih =>
    rw [clear_assignment_cons]
    by_cases hrest : ∃ x ∈ rest, x.var = v
    · exact ih _ hrest (by rw [List.length_set]; exact hlen)
    · have hev : e.var = v := by
        obtain ⟨x, hx, hxv⟩ := hv
        rcases List.mem_cons.mp hx with rfl | hx
        · exact hxv
        · exact absurd ⟨x, hx, hxv⟩ hrest
      push_neg at hrest
      rw [assignGet_clear_not_mem rest _ v hrest, hev,
        assignGet_set_self _ _ _ hlen]

/-! ## Claims C2 and C3: backtracking -/

/-- `backtrack` succeeds as soon as the stack holds a decision whose variable
    is in range. -/
theorem backtrack_succeeds (solver : dpll_solver_t) (d : assignment_entry_t)
    (below : List assignment_entry_t)
    (hd : solver.assignments.stack.dropWhile (fun e => !e.is_decision) = d :: below)
    (hvar : 1 ≤ d.var ∧ d.var ≤ solver.formula.num_variables) :
    (backtrack solver).1 = true := by
  have hne : solver.assignments.stack ≠ [] := by
    intro hnil
    rw [hnil] at hd
    cases hd
  have hempty : solver.assignments.stack.isEmpty = false := by
    simpa [List.isEmpty_iff] using hne
  simp only [backtrack, List.span_eq_take_drop, hd, hempty]
  simp only [Bool.false_eq_true, if_false]
  split
  · rename_i hnone
    exfalso
    rcases assign_variable_none _ _ _ _ hnone with h0 | hgt
    · omega
    · simp only at hgt; omega
  · rfl

/-- What `backtrack` does when it succeeds. -/
theorem backtrack_true_spec (solver : dpll_solver_t)
    (h : (backtrack solver).1 = true) :
    ∃ above d below s2,
      solver.assignments.stack = above ++ d :: below ∧
      (∀ e ∈ above, e.is_decision = false) ∧
      d.is_decision = true ∧
      solver.assignments.stack.takeWhile (fun e => !e.is_decision) = above ∧
      solver.assignments.stack.dropWhile (fun e => !e.is_decision) = d :: below ∧
      1 ≤ d.var ∧ d.var ≤ solver.formula.num_variables ∧
      backtrack solver = (true, s2) ∧
      s2.formula.clauses = solver.formula.clauses ∧
      s2.formula.num_variables = solver.formula.num_variables ∧
      s2.formula.assignment =
        ((clear_assignment solver.formula.assignment above).set d.var
            VAR_UNASSIGNED).set d.var
          (if d.value == VAR_TRUE then VAR_FALSE else VAR_TRUE) ∧
      s2.assignments.stack =
        { var := d.var,
          value := if d.value == VAR_TRUE then VAR_FALSE else VAR_TRUE,
          decision_level := solver.assignments.decision_level + 1,
          is_decision := true } :: below ∧
      s2.assignments.decision_level = solver.assignments.decision_level + 1 := by
  by_cases hne : solver.assignments.stack.isEmpty = true
  · simp only [backtrack, hne, if_true] at h
    cases h
  · have hempty : solver.assignments.stack.isEmpty = false :=
      eq_false_of_ne_true hne
    rcases hdrop : solver.assignments.stack.dropWhile (fun e => !e.is_decision)
        with _ | ⟨d, below⟩
    · exfalso
      simp only [backtrack, hempty, List.span_eq_take_drop, hdrop] at h
      simp at h
    · have hdec : d.is_decision = true := by
        have := List.head?_dropWhile_not (fun e => !e.is_decision)
          solver.assignments.stack
        rw [hdrop] at this
        simpa using this
      have habove : ∀ e ∈ solver.assignments.stack.takeWhile
          (fun e => !e.is_decision), e.is_decision = false := by
        intro e he
        have := List.mem_takeWhile_imp he
        simpa using this
      have hsplit : solver.assignments.stack =
          solver.assignments.stack.takeWhile (fun e => !e.is_decision) ++
            d :: below := by
        conv_lhs => rw [← List.takeWhile_append_dropWhile
          (p := fun e => !e.is_decision) (l := solver.assignments.stack)]
        rw [hdrop]
      simp only [backtrack, hempty, List.span_eq_take_drop, hdrop] at h
      simp only [Bool.false_eq_true, if_false] at h
      split at h
      · simp at h
      · rename_i s2 hassign
        obtain ⟨hcl, hnv, hassn, hstk, _, _, _, hlo, hhi⟩ :=
          assign_variable_some _ _ _ _ s2 hassign
        have hbt : backtrack solver = (true, s2) := by
          simp only [backtrack, hempty, List.span_eq_take_drop, hdrop]
          simp only [Bool.false_eq_true, if_false]
          rw [hassign]
        refine ⟨_, d, below, s2, hsplit, habove, hdec, rfl, hdrop,
          hlo, by exact hhi, hbt, by exact hcl,
          by exact hnv, by exact hassn, ?_, ?_⟩
        · rw [hstk]
          simp [assignment_stack_push]
        · rw [hstk]
          simp [assignment_stack_push]

/-- C2: backtracking from a state whose stack holds a decision (with the
    data-model invariants: pairwise distinct stack variables, in-range
    variables, an assignment array of length N+1 agreeing with the stack)
    flips the most recent decision `d`: the new top of stack is the flipped
    decision with `is_decision = true` and nothing above it, `d.var` is
    assigned the negated value, every popped variable is UNASSIGNED, and the
    assignment agrees with the remaining stack. -/
theorem C2_backtrack_postcondition (solver : dpll_solver_t)
    (d : assignment_entry_t) (below : List assignment_entry_t)
    (hd : solver.assignments.stack.dropWhile (fun e => !e.is_decision) = d :: below)
    (hdistinct : solver.assignments.stack.Pairwise (fun a b => a.var ≠ b.var))
    (hrange : ∀ e ∈ solver.assignments.stack,
      1 ≤ e.var ∧ e.var ≤ solver.formula.num_variables)
    (hlen : solver.formula.assignment.length = solver.formula.num_variables + 1)
    (hagree : ∀ e ∈ solver.assignments.stack,
      assignGet solver.formula.assignment e.var = e.value) :
    (backtrack solver).1 = true ∧
    assignGet (backtrack solver).2.formula.assignment d.var =
      (if d.value == VAR_TRUE then VAR_FALSE else VAR_TRUE) ∧
    (backtrack solver).2.assignments.stack =
      { var := d.var, value := if d.value == VAR_TRUE then VAR_FALSE else VAR_TRUE,
        decision_level := solver.assignments.decision_level + 1,
        is_decision := true } :: below ∧
    (∀ e ∈ solver.assignments.stack.takeWhile (fun e => !e.is_decision),
      assignGet (backtrack solver).2.formula.assignment e.var = VAR_UNASSIGNED) ∧
    (∀ e ∈ (backtrack solver).2.assignments.stack,
      assignGet (backtrack solver).2.formula.assignment e.var = e.value) := by
  have hdmem : d ∈ solver.assignments.stack := by
    rw [← List.takeWhile_append_dropWhile
      (p := fun e => !e.is_decision) (l := solver.assignments.stack), hd]
    exact List.mem_append_right _ (List.mem_cons_self _ _)
  have htrue := backtrack_succeeds solver d below hd (hrange d hdmem)
  obtain ⟨above, d2, below2, s2, hsplit, habove, hdec, htake, hdropeq, hlo, hhi,
    hbt, hcl, hnv, hassn, hstk, hlvl⟩ := backtrack_true_spec solver htrue
  rw [hd] at hdropeq
  injection hdropeq with hd1 hd2
  subst hd1
  subst hd2
  rw [hsplit] at hdistinct
  have hpair := List.pairwise_append.mp hdistinct
  have hdlen : d.var <
      ((clear_assignment solver.formula.assignment above).set d.var
        VAR_UNASSIGNED).length := by
    rw [List.length_set, clear_assignment_length]
    omega
  have hflip : assignGet s2.formula.assignment d.var =
      (if d.value == VAR_TRUE then VAR_FALSE else VAR_TRUE) := by
    rw [hassn]
    exact assignGet_set_self _ _ _ hdlen
  simp only [hbt]
  refine ⟨trivial, hflip, hstk, ?_, ?_⟩
  · rw [htake]
    intro e he
    have hev : e.var ≠ d.var := hpair.2.2 e he d (List.mem_cons_self _ _)
    have helen : e.var < solver.formula.assignment.length := by
      have := hrange e (by rw [hsplit]; exact List.mem_append_left _ he)
      omega
    rw [hassn, assignGet_set_ne _ _ _ _ (fun hvv => hev hvv.symm),
      assignGet_set_ne _ _ _ _ (fun hvv => hev hvv.symm)]
    exact assignGet_clear_mem above _ _ ⟨e, he, rfl⟩ helen
  · rw [hstk]
    intro e he
    rcases List.mem_cons.mp he with rfl | he
    · exact hflip
    · have hev : e.var ≠ d.var := by
        have := (List.pairwise_cons.mp hpair.2.1).1 e he
        exact fun hvv => this hvv.symm
      have hnotabove : ∀ x ∈ above, x.var ≠ e.var := by
        intro x hx
        exact hpair.2.2 x hx e (List.mem_cons_of_mem _ he)
      rw [hassn, assignGet_set_ne _ _ _ _ (fun hvv => hev hvv.symm),
        assignGet_set_ne _ _ _ _ (fun hvv => hev hvv.symm),
        assignGet_clear_not_mem above _ _ hnotabove]
      exact hagree e
        (by rw [hsplit]; exact List.mem_append_right _ (List.mem_cons_of_mem _ he))

/-- Witness for C2: backtracking the one-decision state flips x1 to FALSE. -/
theorem C2_witness :
    (backtrack decided_state).1 = true ∧
    assignGet (backtrack decided_state).2.formula.assignment 1 = VAR_FALSE := by
  have h := C2_backtrack_postcondition decided_state
    { var := 1, value := VAR_TRUE, decision_level := 1, is_decision := true } []
    (by decide) (by decide) (by decide) (by decide) (by decide)
  exact ⟨h.1, by simpa using h.2.1⟩

/-- C3 counterexample: `decided_state` satisfies the invariant, and one
    driver-level `backtrack` (which pops by decrementing `size` without
    touching `decision_level` and then re-pushes the flipped decision,
    incrementing the level) produces a state with `decision_level = 2` but
    only one decision entry. -/
theorem C3_counterexample :
    level_matches decided_state.assignments ∧
    (backtrack decided_state).1 = true ∧
    (backtrack decided_state).2.assignments.decision_level = 2 ∧
    (backtrack decided_state).2.assignments.stack.countP
      (fun e => e.is_decision) = 1 := by
  refine ⟨?_, ?_, ?_, ?_⟩ <;> decide

theorem level_matches_push (st : assignment_stack_t) (var : Nat)
    (value : var_assignment_t) (is_dec : Bool) (h : level_matches st) :
    level_matches (assignment_stack_push st var value is_dec) := by
  cases is_dec <;>
    simp only [level_matches, assignment_stack_push, List.countP_cons] at h ⊢ <;>
    simp [h]

theorem level_matches_pop (st : assignment_stack_t) (e : assignment_entry_t)
    (st' : assignment_stack_t) (h : level_matches st)
    (hpop : assignment_stack_pop st = some (e, st')) :
    level_matches st' ∧
    (e.is_decision = true → st.decision_level = st'.decision_level + 1) ∧
    (e.is_decision = false → st'.decision_level = st.decision_level) := by
  rcases hstack : st.stack with _ | ⟨top, rest⟩
  · simp only [assignment_stack_pop, hstack] at hpop
    cases hpop
  · simp only [assignment_stack_pop, hstack] at hpop
    injection hpop with hpop
    injection hpop with he hst
    rw [level_matches, hstack, List.countP_cons] at h
    rw [← he, ← hst]
    cases htop : top.is_decision with
    | true =>
      simp only [htop, if_true] at h
      have hpos : 0 < st.decision_level := by omega
      refine ⟨?_, fun _ => ?_, fun hfalse => by simp at hfalse⟩
      · simp only [level_matches]
        simp [hpos]
        omega
      · simp [hpos]
        omega
    | false =>
      simp only [htop] at h
      simp only [Bool.false_eq_true, if_false] at h
      refine ⟨?_, fun htrue => by simp at htrue, fun _ => ?_⟩
      · simp only [level_matches]
        simp
        omega
      · simp

theorem assign_variable_level (solver : dpll_solver_t) (var : Nat)
    (value : var_assignment_t) (is_dec : Bool) (s1 : dpll_solver_t)
    (h : level_matches solver.assignments)
    (hassign : assign_variable solver var value is_dec = some s1) :
    level_matches s1.assignments := by
  obtain ⟨_, _, _, hstk, _, _, _, _, _⟩ :=
    assign_variable_some solver _ _ _ s1 hassign
  rw [hstk]
  exact level_matches_push _ _ _ _ h

theorem up_pass_level (cs : List clause_t) (solver : dpll_solver_t) (p : Bool)
    (h : level_matches solver.assignments) :
    level_matches ((up_pass solver cs p).2.1).assignments := by
  induction cs generalizing solver p with
  | nil => exact h
  | cons clause rest ih =>
    simp only [up_pass]
    split
    · exact ih solver p h
    · split
      · exact ih solver p h
      · rename_i unit_literal hunit
        have hun := (clause_is_unit_some clause solver.formula.assignment
          unit_literal hunit).1
        have hassigned : IS_VARIABLE_ASSIGNED solver
            (literal_variable unit_literal) = false := by
          simp [IS_VARIABLE_ASSIGNED, hun]
        rw [hassigned]
        simp only [Bool.false_eq_true, if_false]
        split
        · exact h
        · rename_i s2 hsome
          exact ih _ true (assign_variable_level solver _ _ _ s2 h hsome)

theorem unit_propagation_loop_level (fuel : Nat) (solver : dpll_solver_t)
    (h : level_matches solver.assignments) :
    level_matches ((unit_propagation_loop fuel solver).2.1).assignments := by
  induction fuel generalizing solver with
  | zero => exact h
  | succ fuel ih =>
    have hp := up_pass_level solver.formula.clauses solver false h
    rcases hup : up_pass solver solver.formula.clauses false with ⟨r0, s1, p0⟩
    rw [hup] at hp
    simp only at hp
    simp only [unit_propagation_loop, hup]
    cases r0 with
    | some r => exact hp
    | none =>
      cases p0 with
      | true => exact ih s1 hp
      | false =>
        by_cases hs : cnf_is_satisfied s1.formula = true
        · simp [hs]; exact hp
        · simp [hs]; exact hp

theorem pure_literal_assign_level (solver : dpll_solver_t) (var : Nat)
    (h : level_matches solver.assignments) :
    level_matches ((pure_literal_assign solver var).2).assignments := by
  simp only [pure_literal_assign]
  split
  · exact h
  · split
    · rcases hsome : assign_variable solver var VAR_TRUE false with _ | s1
      · simp only [hsome]; exact h
      · simp only [hsome]
        exact assign_variable_level solver _ _ _ s1 h hsome
    · split
      · rcases hsome : assign_variable solver var VAR_FALSE false with _ | s1
        · simp only [hsome]; exact h
        · simp only [hsome]
          exact assign_variable_level solver _ _ _ s1 h hsome
      · exact h

theorem pure_literal_loop_level (vs : List Nat) (solver : dpll_solver_t)
    (changed : Bool) (h : level_matches solver.assignments) :
    level_matches ((pure_literal_loop vs solver changed).2).assignments := by
  induction vs generalizing solver changed with
  | nil => exact h
  | cons var rest ih =>
    simp only [pure_literal_loop]
    exact ih _ _ (pure_literal_assign_level solver var h)

/-- A successful backtrack leaves the level one above the decision count. -/
theorem backtrack_breaks_level (solver : dpll_solver_t)
    (h : level_matches solver.assignments) (ht : (backtrack solver).1 = true) :
    (backtrack solver).2.assignments.decision_level =
      (backtrack solver).2.assignments.stack.countP
        (fun e => e.is_decision) + 1 := by
  obtain ⟨above, d, below, s2, hsplit, habove, hdec, _, _, _, _,
    hbt, _, _, _, hstk, hlvl⟩ := backtrack_true_spec solver ht
  rw [level_matches, hsplit, List.countP_append, List.countP_cons] at h
  have habove0 : above.countP (fun e => e.is_decision) = 0 :=
    List.countP_eq_zero.mpr (fun e he => by simp [habove e he])
  simp only [hbt]
  rw [hlvl, hstk, List.countP_cons]
  simp only [hdec, if_true] at h ⊢
  simp at h ⊢
  omega

/-- C3 amended: the invariant `decision_level = #decision entries` is
    preserved by `assignment_stack_push`, `assignment_stack_pop` (a popped
    decision decrements the level, a popped propagation leaves it),
    `assign_variable`, `unit_propagation`, and `pure_literal_elimination`,
    but NOT by `backtrack`: a successful backtrack pops the decision without
    touching the stored level (it decrements `size` directly) and then
    re-pushes the flipped decision, incrementing the level, so afterwards
    `decision_level` exceeds the decision count by exactly one. -/
theorem C3_decision_level_amended :
    (∀ (st : assignment_stack_t) (var : Nat) (value : var_assignment_t)
       (is_dec : Bool), level_matches st →
       level_matches (assignment_stack_push st var value is_dec)) ∧
    (∀ (st : assignment_stack_t) (e : assignment_entry_t)
       (st' : assignment_stack_t), level_matches st →
       assignment_stack_pop st = some (e, st') →
       level_matches st' ∧
       (e.is_decision = true → st.decision_level = st'.decision_level + 1) ∧
       (e.is_decision = false → st'.decision_level = st.decision_level)) ∧
    (∀ (solver : dpll_solver_t) (var : Nat) (value : var_assignment_t)
       (is_dec : Bool) (s1 : dpll_solver_t), level_matches solver.assignments →
       assign_variable solver var value is_dec = some s1 →
       level_matches s1.assignments) ∧
    (∀ (fuel : Nat) (solver : dpll_solver_t), level_matches solver.assignments →
       level_matches ((unit_propagation_loop fuel solver).2.1).assignments) ∧
    (∀ solver : dpll_solver_t, level_matches solver.assignments →
       level_matches ((pure_literal_elimination solver).2).assignments) ∧
    (∀ solver : dpll_solver_t, level_matches solver.assignments →
       (backtrack solver).1 = true →
       (backtrack solver).2.assignments.decision_level =
         (backtrack solver).2.assignments.stack.countP
           (fun e => e.is_decision) + 1) :=
  ⟨level_matches_push, level_matches_pop, assign_variable_level,
   unit_propagation_loop_level,
   fun solver h => pure_literal_loop_level _ solver false h,
   backtrack_breaks_level⟩

/-- Witness for C3 (amended) on the one-decision state. -/
theorem C3_witness :
    level_matches decided_state.assignments ∧
    (backtrack decided_state).2.assignments.decision_level =
      (backtrack decided_state).2.assignments.stack.countP
        (fun e => e.is_decision) + 1 :=
  ⟨by decide,
   C3_decision_level_amended.2.2.2.2.2 decided_state (by decide) (by decide)⟩

/-! ## Claim C1: soundness of the solver -/

/-- Completing UNASSIGNED variables to FALSE keeps every satisfied literal
    satisfied. -/
theorem literal_value_satisfies_completed (a : List var_assignment_t)
    (pos : Bool) (v : Nat)
    (h : literal_value_satisfies pos (assignGet a v) = true) :
    literal_value_satisfies pos (assignGet (completed_assignment a) v) = true := by
  by_cases hv : v < a.length
  · have hget : a[v]? = some a[v] := List.getElem?_eq_getElem hv
    have h1 : assignGet a v = a[v] := by simp [assignGet_eq_getD, hget]
    have h2 : assignGet (completed_assignment a) v =
        (if a[v] == VAR_TRUE then VAR_TRUE else VAR_FALSE) := by
      simp [completed_assignment, assignGet_eq_getD, hget]
    rw [h1] at h
    rw [h2]
    cases hval : a[v] <;> cases pos <;> simp_all [literal_value_satisfies]
  · rw [assignGet_ge_length a v (by omega), literal_value_satisfies_unassigned] at h
    cases h

/-- A satisfied formula stays satisfied after the UNASSIGNED → FALSE
    completion of `print_class_model_line`. -/
theorem cnf_satisfied_completed (f : cnf_formula_t)
    (h : cnf_is_satisfied f = true) :
    ∀ c ∈ f.clauses,
      clause_is_satisfied c (completed_assignment f.assignment) = true := by
  intro c hc
  simp only [cnf_is_satisfied, List.all_eq_true] at h
  have hsat := h c hc
  simp only [clause_is_satisfied, List.any_eq_true] at hsat ⊢
  obtain ⟨lit, hmem, hlit⟩ := hsat
  exact ⟨lit, hmem, literal_value_satisfies_completed _ _ _ hlit⟩

/-- The DPLL loop answers SATISFIABLE only from states where
    `is_formula_satisfied` just returned true. -/
theorem dpll_loop_sat (choose_var : dpll_solver_t → Nat)
    (timeout_at : Nat → Bool) (fuel : Nat) :
    ∀ (iter : Nat) (solver s1 : dpll_solver_t),
    dpll_loop choose_var timeout_at fuel iter solver = (SOLVER_SATISFIABLE, s1) →
    cnf_is_satisfied s1.formula = true := by
  induction fuel with
  | zero =>
    intro iter solver s1 h
    simp only [dpll_loop] at h
    injection h with h1 _
    cases h1
  | succ fuel ih =>
    intro iter solver s1 h
    simp only [dpll_loop] at h
    repeat' split at h
    all_goals first
      | exact ih _ _ _ h
      | (injection h with h1 h2; cases h1; done)
      | (injection h with h1 h2; subst h2; assumption)

/-- `solver_solve` answers SATISFIABLE only with a satisfied formula (either
    the preprocessing left zero clauses, or the DPLL loop reported it). -/
theorem solver_solve_sat (choose_var : dpll_solver_t → Nat)
    (timeout_at : Nat → Bool) (solver s1 : dpll_solver_t)
    (h : solver_solve choose_var timeout_at solver = (SOLVER_SATISFIABLE, s1)) :
    cnf_is_satisfied s1.formula = true := by
  simp only [solver_solve] at h
  repeat' split at h
  all_goals first
    | exact dpll_loop_sat choose_var timeout_at 1000 0 _ _ h
    | (injection h with h1 h2; cases h1; done)
    | (rename_i hcond
       injection h with h1 h2
       subst h2
       simp only [Bool.and_eq_true, beq_iff_eq] at hcond
       have hnil := List.length_eq_zero.mp hcond.2
       simp [cnf_is_satisfied, hnil])

/-- C1: if `dpll_algorithm` or `solver_solve` returns SATISFIABLE, every
    clause of the formula evaluates to true under the final assignment with
    every UNASSIGNED variable completed to FALSE. -/
theorem C1_solver_soundness (choose_var : dpll_solver_t → Nat)
    (timeout_at : Nat → Bool) (solver s1 : dpll_solver_t)
    (h : dpll_algorithm choose_var timeout_at solver = (SOLVER_SATISFIABLE, s1) ∨
         solver_solve choose_var timeout_at solver = (SOLVER_SATISFIABLE, s1)) :
    ∀ c ∈ s1.formula.clauses,
      clause_is_satisfied c (completed_assignment s1.formula.assignment) = true := by
  rcases h with h | h
  · exact cnf_satisfied_completed _ (dpll_loop_sat choose_var timeout_at 1000 _ _ _ h)
  · exact cnf_satisfied_completed _ (solver_solve_sat choose_var timeout_at solver s1 h)

/-- Witness for C1: solving the one-clause formula (x1). -/
theorem C1_witness :
    dpll_algorithm decision_first_unassigned (fun _ => false) (mk_solver 1 [[1]]) =
      (SOLVER_SATISFIABLE,
       (dpll_algorithm decision_first_unassigned (fun _ => false)
         (mk_solver 1 [[1]])).2) ∧
    ∀ c ∈ (dpll_algorithm decision_first_unassigned (fun _ => false)
        (mk_solver 1 [[1]])).2.formula.clauses,
      clause_is_satisfied c
        (completed_assignment
          (dpll_algorithm decision_first_unassigned (fun _ => false)
            (mk_solver 1 [[1]])).2.formula.assignment) = true :=
  ⟨by decide,
   C1_solver_soundness decision_first_unassigned (fun _ => false)
     (mk_solver 1 [[1]]) _ (Or.inl (by decide))⟩

/-! ## Claim C9: clause-line parsing errors -/

/-- C9 counterexample: the line "5" (for N = 2) has no 0 terminator, yet
    `parse_clause_line` reports the out-of-range error, not the
    clause-not-terminated error: range checking happens first. -/
theorem C9_counterexample :
    ¬((0 : Int) ∈ ([5] : List Int)) ∧
    (parse_clause_line [5] 2).1 = PARSE_ERROR_VARIABLE_OUT_OF_RANGE ∧
    (parse_clause_line [5] 2).1 ≠ PARSE_ERROR_CLAUSE_NOT_TERMINATED := by
  refine ⟨by decide, rfl, by decide⟩

theorem parse_clause_line_go_no_term (tokens : List Int) (maxv : Int)
    (clause : clause_t)
    (h : ∀ t ∈ tokens, t ≠ 0 ∧ is_valid_literal t maxv = true) :
    (parse_clause_line_go maxv tokens clause).1 =
      PARSE_ERROR_CLAUSE_NOT_TERMINATED := by
  induction tokens generalizing clause with
  | nil => rfl
  | cons t rest ih =>
    obtain ⟨hne, hvalid⟩ := h t (List.mem_cons_self _ _)
    simp only [parse_clause_line_go, beq_iff_eq, hne, if_false, hvalid,
      Bool.not_true]
    simp only [Bool.false_eq_true, if_false]
    exact ih _ (fun x hx => h x (List.mem_cons_of_mem _ hx))

theorem parse_clause_line_go_oor (pre : List Int) (t : Int) (post : List Int)
    (maxv : Int) (clause : clause_t)
    (hpre : ∀ p ∈ pre, p ≠ 0 ∧ is_valid_literal p maxv = true)
    (ht : t ≠ 0) (hinv : is_valid_literal t maxv = false) :
    (parse_clause_line_go maxv (pre ++ t :: post) clause).1 =
      PARSE_ERROR_VARIABLE_OUT_OF_RANGE := by
  induction pre generalizing clause with
  | nil =>
    simp [parse_clause_line_go, ht, hinv]
  | cons p rest ih =>
    obtain ⟨hne, hvalid⟩ := hpre p (List.mem_cons_self _ _)
    simp only [List.cons_append, parse_clause_line_go, beq_iff_eq, hne,
      if_false, hvalid, Bool.not_true]
    simp only [Bool.false_eq_true, if_false]
    exact ih _ (fun x hx => hpre x (List.mem_cons_of_mem _ hx))

/-- C9 amended: with integer tokens, `parse_clause_line` reports
    clause-not-terminated when no 0 terminator occurs and every literal is in
    range, and variable-out-of-range when an out-of-range literal occurs
    before the first 0 terminator (out-of-range detection precedes the
    terminator check, so it wins when both conditions hold); on any error the
    caller adds no clause to the formula. -/
theorem C9_parse_errors_amended :
    (∀ (tokens : List Int) (maxv : Int),
      (∀ t ∈ tokens, t ≠ 0 ∧ is_valid_literal t maxv = true) →
      (parse_clause_line tokens maxv).1 = PARSE_ERROR_CLAUSE_NOT_TERMINATED) ∧
    (∀ (pre : List Int) (t : Int) (post : List Int) (maxv : Int),
      (∀ p ∈ pre, p ≠ 0 ∧ is_valid_literal p maxv = true) →
      t ≠ 0 → is_valid_literal t maxv = false →
      (parse_clause_line (pre ++ t :: post) maxv).1 =
        PARSE_ERROR_VARIABLE_OUT_OF_RANGE) ∧
    (∀ (formula : cnf_formula_t) (tokens : List Int) (err : parse_result_t),
      (process_clause_line formula tokens).1 = some err →
      (process_clause_line formula tokens).2 = formula) := by
  refine ⟨fun tokens maxv h => parse_clause_line_go_no_term tokens maxv _ h,
          fun pre t post maxv hpre ht hinv =>
            parse_clause_line_go_oor pre t post maxv _ hpre ht hinv,
          ?_⟩
  intro formula tokens err h
  rcases hr : parse_clause_line tokens (Int.ofNat formula.num_variables)
    with ⟨res, clause⟩
  cases res with
  | PARSE_OK =>
    simp only [process_clause_line, hr] at h ⊢
    by_cases h0 : (clause.literals.length == 0) = true
    · simp [h0] at h
    · by_cases h1 : clause_is_tautology clause = true
      · simp [h0, h1] at h
      · simp [h0, h1] at h
  | PARSE_ERROR_INVALID_CLAUSE => simp only [process_clause_line, hr]
  | PARSE_ERROR_VARIABLE_OUT_OF_RANGE => simp only [process_clause_line, hr]
  | PARSE_ERROR_CLAUSE_NOT_TERMINATED => simp only [process_clause_line, hr]

/-- Witness for C9 (amended): the unterminated in-range line "1 -2" and the
    out-of-range line "3", both for N = 2; no clause enters the formula. -/
theorem C9_witness :
    (parse_clause_line [1, -2] 2).1 = PARSE_ERROR_CLAUSE_NOT_TERMINATED ∧
    (parse_clause_line [3] 2).1 = PARSE_ERROR_VARIABLE_OUT_OF_RANGE ∧
    (process_clause_line (mk_solver 2 [[1]]).formula [1, -2]).2 =
      (mk_solver 2 [[1]]).formula :=
  ⟨C9_parse_errors_amended.1 [1, -2] 2 (by decide),
   C9_parse_errors_amended.2.1 [] 3 [] 2 (by decide) (by decide) (by decide),
   C9_parse_errors_amended.2.2 (mk_solver 2 [[1]]).formula [1, -2]
     PARSE_ERROR_CLAUSE_NOT_TERMINATED (by decide)⟩

end SatSolver
